import Mathlib

/-!
Shallow embedding of the name-resolution / macro-expansion core
(`crates/ra_hir/src/nameres/collector.rs`) of the analyzed repository,
together with proofs about the properties its specification states.

Rust hash maps are modelled as association lists (when iteration order
matters to the code) or as plain functions (when only lookup/insert is
used).  Panics are modelled by `Option` (a `none` result is a panic).
Possibly non-terminating recursion (macro expansion re-collection) is
modelled with explicit fuel.
-/

namespace Nameres

/-- Interned identifier (`hir::Name`). -/
abbrev Name := String

abbrev FileId := Nat
abbrev CrateId := Nat
abbrev ImportId := Nat
abbrev ModuleId := Nat

/-- `HirFileId`: either a real file or the pseudo-file produced by a macro
call.  A macro call is identified by its definition (file + ast id of the
defining `macro_rules`) and its invocation site (file + ast id). -/
inductive HirFileId where
  | file (f : FileId)
  | macroF (defFile : HirFileId) (defAst : Nat) (callFile : HirFileId) (callAst : Nat)
  deriving DecidableEq, Repr

/-- `AstId` already combined with its file (`ast_id.with_file_id(..)`). -/
structure AstIdF where
  file : HirFileId
  ast : Nat
  deriving DecidableEq, Repr

/-- `MacroDefId(AstId<ast::MacroCall>)`. -/
abbrev MacroDefId := AstIdF

/-- `MacroCallLoc { def, ast_id }`, interned as `MacroCallId`. -/
structure MacroCallId where
  defId : MacroDefId
  astId : AstIdF
  deriving DecidableEq, Repr

/-- `MacroCallId::as_file(MacroFileKind::Items)`: the pseudo-file holding
the expansion of the call. -/
def MacroCallId.asFile (c : MacroCallId) : HirFileId :=
  .macroF c.defId.file c.defId.ast c.astId.file c.astId.ast

/-- A path is its list of segment names (`Path { segments }`, each
segment's `name`). -/
structure Path where
  segments : List Name
  deriving DecidableEq, Repr

/-- `Path::as_ident`: a single-segment path viewed as one name. -/
def Path.asIdent (p : Path) : Option Name :=
  match p.segments with
  | [n] => some n
  | _ => none

/-- Modelled from the spec: `PerNs<T>` — a pair of optional values, one
per namespace (type namespace, value namespace). -/
structure PerNs (α : Type) where
  types : Option α
  values : Option α
  deriving DecidableEq, Repr

namespace PerNs

def none' {α} : PerNs α := ⟨Option.none, Option.none⟩

/-- `PerNs::values` (renamed: clashes with the field name in Lean). -/
def onlyValues {α} (v : α) : PerNs α := ⟨Option.none, some v⟩

/-- `PerNs::types` (renamed: clashes with the field name in Lean). -/
def onlyTypes {α} (t : α) : PerNs α := ⟨some t, Option.none⟩

def both {α} (t v : α) : PerNs α := ⟨some t, some v⟩

/-- `PerNs::is_none`. -/
def isNone {α} (p : PerNs α) : Bool := p.types.isNone && p.values.isNone

/-- `PerNs::take_types`. -/
def takeTypes {α} (p : PerNs α) : Option α := p.types

end PerNs

/-- `Module { krate, module_id }` from `code_model_api.rs`. -/
structure ModuleRef where
  krate : CrateId
  module_id : ModuleId
  deriving DecidableEq, Repr

/-- Location of an item definition: the `LocationCtx` (module + file) plus
the item's ast id, standing for the interned `AstItemDef` ids. -/
structure ItemLoc where
  module : ModuleRef
  file : HirFileId
  ast : Nat
  deriving DecidableEq, Repr

/-- `EnumVariant { parent, id }`. -/
structure EnumVariantRef where
  parent : ItemLoc
  idx : Nat
  deriving DecidableEq, Repr

/-- `ModuleDef` from `code_model_api.rs`: the defs which can be visible in
a module. -/
inductive ModuleDef where
  | Module (m : ModuleRef)
  | Function (loc : ItemLoc)
  | Struct (loc : ItemLoc)
  | Union (loc : ItemLoc)
  | Enum (loc : ItemLoc)
  | EnumVariant (v : EnumVariantRef)
  | Const (loc : ItemLoc)
  | Static (loc : ItemLoc)
  | Trait (loc : ItemLoc)
  | TypeAlias (loc : ItemLoc)
  deriving DecidableEq, Repr

/-- Modelled from the spec: `Resolution { def, import }` — the current
best-known binding for a name, plus the import responsible for it.  The
Rust field names `def` and `import` are Lean keywords, hence `def_` and
`importId`. -/
structure Resolution where
  def_ : PerNs ModuleDef
  importId : Option ImportId
  deriving DecidableEq, Repr

instance : Inhabited Resolution := ⟨⟨PerNs.none', Option.none⟩⟩

/-- A module scope: `FxHashMap<Name, Resolution>` modelled as an
association list with unique keys (iteration order is needed by glob
imports). -/
abbrev Scope := List (Name × Resolution)

/-- Map lookup (`HashMap::get`). -/
def Scope.lookup : Scope → Name → Option Resolution
  | [], _ => Option.none
  | (k, v) :: rest, n => if k = n then some v else Scope.lookup rest n

/-- Map insert/overwrite at a key: replaces the first binding of the key,
or appends a new one. -/
def Scope.insertAt (s : Scope) (n : Name) (r : Resolution) : Scope :=
  match s with
  | [] => [(n, r)]
  | (k, v) :: rest =>
    if k = n then (k, r) :: rest else (k, v) :: Scope.insertAt rest n r

/-- One iteration of the body of `DefCollector::update_recursive`'s
`for (name, res) in resolutions` loop, acting on the entry for one name
(`existing`), with the update call's import id `imp`.  Returns the new
entry and whether `changed` was set by this entry.  The three `if`s are
sequential, exactly as in the source. -/
def mergeResolutionStep (imp : Option ImportId) (res : Resolution)
    (e0 : Resolution) : Resolution × Bool :=
  let s1 :=
    if e0.def_.types.isNone && res.def_.types.isSome then
      ({ e0 with
          def_ := { e0.def_ with types := res.def_.types },
          importId := match imp with
            | some i => some i
            | Option.none => res.importId }, true)
    else (e0, false)
  let e1 := s1.1
  let s2 :=
    if e1.def_.values.isNone && res.def_.values.isSome then
      ({ e1 with
          def_ := { e1.def_ with values := res.def_.values },
          importId := match imp with
            | some i => some i
            | Option.none => res.importId }, true)
    else (e1, false)
  let e2 := s2.1
  let e3 :=
    if e2.def_.isNone && res.def_.isNone && e2.importId.isNone
        && res.importId.isSome then
      { e2 with importId := res.importId }
    else e2
  (e3, s1.2 || s2.2)

/-- The whole `for (name, res) in resolutions` loop of
`update_recursive`: folds `mergeResolutionStep` over the resolutions,
creating missing entries with the default `Resolution`
(`entry(name).or_default()`), and accumulating the `changed` flag. -/
def updateScopeList (imp : Option ImportId) :
    List (Name × Resolution) → Scope → Scope × Bool
  | [], scope => (scope, false)
  | (n, r) :: rest, scope =>
    let existing := (Scope.lookup scope n).getD default
    let step := mergeResolutionStep imp r existing
    let next := updateScopeList imp rest (Scope.insertAt scope n step.1)
    (next.1, step.2 || next.2)

/-- `ReachedFixedPoint` from the nameres module. -/
inductive ReachedFixedPoint where
  | Yes
  | No
  deriving DecidableEq, Repr

/-- The one diagnostic kind produced by the collector
(`DefDiagnostic::UnresolvedModule`); the candidate is a relative path,
modelled as its list of segments. -/
inductive Diagnostic where
  | UnresolvedModule (module : ModuleId) (declaration : AstIdF)
      (candidate : List String)
  deriving DecidableEq, Repr

/-- `raw::ImportData` (`alias` is a Lean keyword, hence `alias_`). -/
structure ImportData where
  path : Path
  alias_ : Option Name
  is_glob : Bool
  is_extern_crate : Bool
  is_prelude : Bool
  deriving DecidableEq, Repr

/-- `raw::DefKind`, each variant carrying the item's ast id. -/
inductive DefKind where
  | Function (ast : Nat)
  | Struct (ast : Nat)
  | Union (ast : Nat)
  | Enum (ast : Nat)
  | Const (ast : Nat)
  | Static (ast : Nat)
  | Trait (ast : Nat)
  | TypeAlias (ast : Nat)
  deriving DecidableEq, Repr

/-- `raw::DefData`. -/
structure DefData where
  name : Name
  kind : DefKind
  deriving DecidableEq, Repr

/-- `raw::MacroData` (`export` is a Lean keyword, hence `exported`). -/
structure MacroData where
  ast : Nat
  path : Path
  name : Option Name
  exported : Bool
  deriving DecidableEq, Repr

mutual
/-- `raw::RawItem`; the arena indirection of the Rust code (items refer to
arena ids, resolved through `raw_items[..]`) is modelled by storing the
data inline. -/
inductive RawItem where
  | ModuleItem (m : RawModuleData)
  | ImportItem (id : ImportId) (data : ImportData)
  | DefItem (d : DefData)
  | MacroItem (m : MacroData)

/-- `raw::ModuleData`: an inline module with its nested items, or an
out-of-line declaration. -/
inductive RawModuleData where
  | Definition (name : Name) (ast : Nat) (items : List RawItem)
  | Declaration (name : Name) (ast : Nat)
end

/-- `nameres::ModuleData` (one arena entry). -/
structure ModuleData where
  parent : Option ModuleId := Option.none
  children : Name → Option ModuleId := fun _ => Option.none
  scope : Scope := []
  declaration : Option AstIdF := Option.none
  definition : Option FileId := Option.none

instance : Inhabited ModuleData := ⟨{}⟩

/-- `CrateDefMap`.  Hash maps that are only read/written pointwise are
modelled as functions; the module arena is a list indexed by
`ModuleId`. -/
structure CrateDefMap where
  krate : CrateId
  extern_prelude : Name → Option ModuleDef
  prelude : Option ModuleRef
  root : ModuleId
  modules : List ModuleData
  public_macros : Name → Option MacroDefId
  local_macros : Name → Option MacroDefId
  poison_macros : MacroDefId → Bool
  diagnostics : List Diagnostic

/-- Modelled from the spec: `CrateDefMap::resolve_name_in_extern_prelude`
(defined outside the collector source): looks the name up in the extern
prelude, which maps names to type-namespace defs. -/
def CrateDefMap.resolveNameInExternPrelude (dm : CrateDefMap) (n : Name) :
    PerNs ModuleDef :=
  match dm.extern_prelude n with
  | some d => PerNs.onlyTypes d
  | Option.none => PerNs.none'

/-- `MacroStackMonitor`. -/
structure MacroStackMonitor where
  counts : MacroDefId → Nat
  validator : Option (Nat → Bool)

/-- `MacroStackMonitor::increase`. -/
def MacroStackMonitor.increase (m : MacroStackMonitor) (id : MacroDefId) :
    MacroStackMonitor :=
  { m with counts := fun k => if k = id then m.counts k + 1 else m.counts k }

/-- `MacroStackMonitor::decrease`. -/
def MacroStackMonitor.decrease (m : MacroStackMonitor) (id : MacroDefId) :
    MacroStackMonitor :=
  { m with counts := fun k => if k = id then m.counts k - 1 else m.counts k }

/-- `MacroStackMonitor::is_poison`: with no validator installed, poison
when the current count exceeds 100. -/
def MacroStackMonitor.isPoison (m : MacroStackMonitor) (id : MacroDefId) :
    Bool :=
  let cur := m.counts id
  match m.validator with
  | some v => v cur
  | Option.none => decide (cur > 100)

/-- The mutable state of `DefCollector` (its `db` field is passed
separately). -/
structure DefCollector where
  def_map : CrateDefMap
  glob_imports : ModuleId → List (ModuleId × ImportId)
  unresolved_imports : List (ModuleId × ImportId × ImportData)
  unexpanded_macros : List (ModuleId × AstIdF × Path)
  global_macro_scope : Name → Option MacroDefId
  macro_stack_monitor : MacroStackMonitor

/-- `ResolvePathResult`, as far as the collector consumes it. -/
structure ResolveResult where
  resolved_def : PerNs ModuleDef
  reached_fixedpoint : ReachedFixedPoint

/-- The database facade: the external queries the collector performs.
`resolvePathFp` is modelled from the spec (general path resolution lives
outside the collector source): it resolves one import path against the
current map, answering resolved/not-yet. -/
structure Db where
  crateRoot : CrateId → FileId
  rawItems : HirFileId → List RawItem
  crateDefMap : CrateId → CrateDefMap
  enumVariantNames : ItemLoc → List (Option Name)
  resolvePathFp : CrateDefMap → ModuleId → Path → ResolveResult
  fileRelativePath : FileId → List String
  fileSourceRoot : FileId → Nat
  sourceRootFiles : Nat → List (List String × FileId)

/-- Convenience: read one module's data from the arena. -/
def DefCollector.moduleAt (st : DefCollector) (m : ModuleId) : ModuleData :=
  st.def_map.modules.getD m default

/-- `DefCollector::update_recursive`.  The `depth > 100` panic is the
`none` outcome.  The extra fuel argument only finances the mutual
recursion; called through `update` with fuel 102 it can never run out
before the faithful `depth` check fires. -/
def updateRecAux (fuel : Nat) (st : DefCollector) (module_id : ModuleId)
    (imp : Option ImportId) (resolutions : List (Name × Resolution))
    (depth : Nat) : Option DefCollector :=
  match fuel with
  | 0 => Option.none
  | Nat.succ fuel =>
    if depth > 100 then Option.none
    else
      let md := st.def_map.modules.getD module_id default
      let upd := updateScopeList imp resolutions md.scope
      let st' := { st with def_map := { st.def_map with
        modules := st.def_map.modules.set module_id { md with scope := upd.1 } } }
      if upd.2 then
        (st'.glob_imports module_id).foldlM
          (fun acc p => updateRecAux fuel acc p.1 (some p.2) resolutions (depth + 1))
          st'
      else some st'

/-- `DefCollector::update`. -/
def update (st : DefCollector) (module_id : ModuleId)
    (imp : Option ImportId) (resolutions : List (Name × Resolution)) :
    Option DefCollector :=
  updateRecAux 102 st module_id imp resolutions 0

/-- `DefCollector::record_resolved_import`. -/
def recordResolvedImport (db : Db) (st : DefCollector) (module_id : ModuleId)
    (def_ : PerNs ModuleDef) (import_id : ImportId) (imp : ImportData) :
    Option DefCollector :=
  if imp.is_glob then
    match def_.takeTypes with
    | some (ModuleDef.Module m) =>
      if imp.is_prelude then
        some { st with def_map := { st.def_map with prelude := some m } }
      else if m.krate ≠ st.def_map.krate then
        -- glob import from other crate: import its whole scope once
        let item_map := db.crateDefMap m.krate
        let items := (item_map.modules.getD m.module_id default).scope
        update st module_id (some import_id) items
      else
        -- glob import from same crate: initial import, then subscribe
        let items := (st.def_map.modules.getD m.module_id default).scope
        match update st module_id (some import_id) items with
        | Option.none => Option.none
        | some st' =>
          some { st' with glob_imports := fun k =>
            if k = m.module_id then st'.glob_imports k ++ [(module_id, import_id)]
            else st'.glob_imports k }
    | some (ModuleDef.Enum e) =>
      -- glob import from enum: import all the variants
      let resolutions := (db.enumVariantNames e).enum.filterMap
        (fun p =>
          match p.2 with
          | some nm =>
            some (nm, Resolution.mk
              (PerNs.both (ModuleDef.EnumVariant ⟨e, p.1⟩)
                (ModuleDef.EnumVariant ⟨e, p.1⟩))
              (some import_id))
          | Option.none => Option.none)
      update st module_id (some import_id) resolutions
    | some _ => some st      -- glob from non-module/enum: logged only
    | Option.none => some st -- glob that did not resolve as a type: logged only
  else
    match imp.path.segments.getLast? with
    | some last_segment =>
      let name := imp.alias_.getD last_segment
      -- extern crates in the crate root feed the extern prelude
      let st :=
        if imp.is_extern_crate ∧ module_id = st.def_map.root then
          match def_.takeTypes with
          | some d =>
            { st with def_map := { st.def_map with extern_prelude := fun n =>
              (if n = name then some d else st.def_map.extern_prelude n) } }
          | Option.none => st
        else st
      let resolution := Resolution.mk def_ (some import_id)
      update st module_id (some import_id) [(name, resolution)]
    | Option.none => some st -- tested_by!(bogus_paths)

/-- `DefCollector::resolve_import`: one import, against the current map.
The `expect` on a malformed extern-crate path is the `none` outcome. -/
def resolveOneImport (db : Db) (dm : CrateDefMap) (module_id : ModuleId)
    (imp : ImportData) : Option (PerNs ModuleDef × ReachedFixedPoint) :=
  if imp.is_extern_crate then
    match imp.path.asIdent with
    | some n => some (dm.resolveNameInExternPrelude n, ReachedFixedPoint.Yes)
    | Option.none => Option.none
  else
    let r := db.resolvePathFp dm module_id imp.path
    some (r.resolved_def, r.reached_fixedpoint)

/-- `DefCollector::resolve_imports`: decide every pending import against
the pre-round state, keep the not-yet ones queued, then commit the
resolved ones in queue order. -/
def resolveImports (db : Db) (st : DefCollector) :
    Option (DefCollector × ReachedFixedPoint) :=
  match st.unresolved_imports.mapM
      (fun e => (resolveOneImport db st.def_map e.1 e.2.2).map (fun r => (e, r))) with
  | Option.none => Option.none
  | some decisions =>
    let retained := (decisions.filter
      (fun d => d.2.2 = ReachedFixedPoint.No)).map Prod.fst
    let resolvedL := decisions.filter (fun d => d.2.2 = ReachedFixedPoint.Yes)
    let st1 := { st with unresolved_imports := retained }
    let result := if resolvedL.isEmpty then ReachedFixedPoint.Yes
      else ReachedFixedPoint.No
    match resolvedL.foldlM
        (fun acc d => recordResolvedImport db acc d.1.1 d.2.1 d.1.2.1 d.1.2.2)
        st1 with
    | Option.none => Option.none
    | some st2 => some (st2, result)

/-- `DefCollector::define_macro`. -/
def defineMacroDef (st : DefCollector) (name : Name) (macro_id : MacroDefId)
    (exported : Bool) : DefCollector :=
  let dm := st.def_map
  let dm' :=
    if exported then
      { dm with public_macros := fun k =>
        (if k = name then some macro_id else dm.public_macros k) }
    else
      { dm with local_macros := fun k =>
        (if k = name then some macro_id else dm.local_macros k) }
  { st with
      def_map := dm',
      global_macro_scope := fun k =>
        (if k = name then some macro_id else st.global_macro_scope k) }

/-- `is_macro_rules`. -/
def isMacroRules (p : Path) : Bool := p.asIdent = some "macro_rules"

/-- `HirFileId::original_file`: the real file behind a (possibly macro-)
file id. -/
def HirFileId.originalFile : HirFileId → FileId
  | .file f => f
  | .macroF _ _ callFile _ => callFile.originalFile

/-- File stem of one path segment (`RelativePath::file_stem`): the file
name minus the extension after the LAST dot, so `"foo.tar.rs"` gives
`"foo.tar"`; a name with no dot, or only a leading dot, has no extension
to strip. -/
def fileStem (s : String) : String :=
  match s.splitOn "." with
  | [] => s
  | [_] => s
  | ["", _] => s
  | parts => String.intercalate "." parts.dropLast

/-- `resolve_submodule`: compute the candidate files for a declared
submodule and look them up in the source root; relative paths are lists
of segments. -/
def resolveSubmodule (db : Db) (file_id : HirFileId) (name : Name)
    (is_root : Bool) : Except (List String) FileId :=
  let fid := file_id.originalFile
  let source_root_id := db.fileSourceRoot fid
  let path := db.fileRelativePath fid
  let dir_path := path.dropLast
  let mod_name := (path.getLast?.map fileStem).getD "unknown"
  let is_dir_owner := is_root || (mod_name = "mod" : Bool)
  let file_mod := dir_path ++ [name ++ ".rs"]
  let dir_mod := dir_path ++ [name, "mod.rs"]
  let file_dir_mod := dir_path ++ [mod_name, name ++ ".rs"]
  let candidates := if is_dir_owner then [file_mod, dir_mod] else [file_dir_mod]
  let files := db.sourceRootFiles source_root_id
  let points_to := candidates.filterMap
    (fun p => (files.find? (fun e => e.1 = p)).map Prod.snd)
  match points_to.head? with
  | some f => Except.ok f
  | Option.none => Except.error (if is_dir_owner then file_mod else file_dir_mod)

/-- `ModCollector::push_child_module`: allocate the child in the arena,
wire it up, and bind its name into the parent scope (type namespace, no
import). -/
def pushChildModule (st : DefCollector) (module_id : ModuleId) (name : Name)
    (declaration : AstIdF) (definition : Option FileId) :
    Option (DefCollector × ModuleId) :=
  let dm := st.def_map
  let res := dm.modules.length
  let childMd : ModuleData :=
    { parent := some module_id, declaration := some declaration,
      definition := definition }
  let parentMd := dm.modules.getD module_id default
  let parentMd' := { parentMd with children := fun k =>
    (if k = name then some res else parentMd.children k) }
  let modules' := (dm.modules ++ [childMd]).set module_id parentMd'
  let st1 := { st with def_map := { dm with modules := modules' } }
  let resolution := Resolution.mk
    (PerNs.onlyTypes (ModuleDef.Module ⟨dm.krate, res⟩)) Option.none
  match update st1 module_id Option.none [(name, resolution)] with
  | Option.none => Option.none
  | some st2 => some (st2, res)

/-- The `PerNs` classification performed by `ModCollector::define_def`:
which namespaces each definition kind occupies. -/
def defKindToPerNs (module : ModuleRef) (file : HirFileId) :
    DefKind → PerNs ModuleDef
  | .Function ast => PerNs.onlyValues (ModuleDef.Function ⟨module, file, ast⟩)
  | .Struct ast =>
    let s := ModuleDef.Struct ⟨module, file, ast⟩
    PerNs.both s s
  | .Union ast =>
    let s := ModuleDef.Union ⟨module, file, ast⟩
    PerNs.both s s
  | .Enum ast => PerNs.onlyTypes (ModuleDef.Enum ⟨module, file, ast⟩)
  | .Const ast => PerNs.onlyValues (ModuleDef.Const ⟨module, file, ast⟩)
  | .Static ast => PerNs.onlyValues (ModuleDef.Static ⟨module, file, ast⟩)
  | .Trait ast => PerNs.onlyTypes (ModuleDef.Trait ⟨module, file, ast⟩)
  | .TypeAlias ast => PerNs.onlyTypes (ModuleDef.TypeAlias ⟨module, file, ast⟩)

/-- `ModCollector::define_def`. -/
def defineDef (st : DefCollector) (module_id : ModuleId)
    (file_id : HirFileId) (d : DefData) : Option DefCollector :=
  let module := ModuleRef.mk st.def_map.krate module_id
  update st module_id Option.none
    [(d.name, Resolution.mk (defKindToPerNs module file_id d.kind) Option.none)]

mutual

/-- `ModCollector::collect`: walk one raw item list for a given
`(module, file)` context.  Fuel finances the non-structural recursion of
macro expansion and out-of-line submodules; running out of fuel is
`none`. -/
def collectItems (db : Db) : Nat → ModuleId → HirFileId → List RawItem →
    DefCollector → Option DefCollector
  | 0, _, _, _, _ => Option.none
  | Nat.succ fuel, module_id, file_id, items, st =>
    match items with
    | [] => some st
    | RawItem.ModuleItem m :: rest =>
      match collectModule db fuel module_id file_id m st with
      | Option.none => Option.none
      | some st' => collectItems db fuel module_id file_id rest st'
    | RawItem.ImportItem iid idata :: rest =>
      collectItems db fuel module_id file_id rest
        { st with unresolved_imports :=
            st.unresolved_imports ++ [(module_id, iid, idata)] }
    | RawItem.DefItem d :: rest =>
      match defineDef st module_id file_id d with
      | Option.none => Option.none
      | some st' => collectItems db fuel module_id file_id rest st'
    | RawItem.MacroItem mac :: rest =>
      match collectMacroData db fuel module_id file_id mac st with
      | Option.none => Option.none
      | some st' => collectItems db fuel module_id file_id rest st'

/-- `ModCollector::collect_module`. -/
def collectModule (db : Db) : Nat → ModuleId → HirFileId → RawModuleData →
    DefCollector → Option DefCollector
  | 0, _, _, _, _ => Option.none
  | Nat.succ fuel, module_id, file_id, m, st =>
    match m with
    | RawModuleData.Definition name ast items =>
      -- inline module, just recurse
      match pushChildModule st module_id name (AstIdF.mk file_id ast)
          Option.none with
      | Option.none => Option.none
      | some (st', mid') => collectItems db fuel mid' file_id items st'
    | RawModuleData.Declaration name ast =>
      -- out of line module: resolve, parse and recurse
      let astF := AstIdF.mk file_id ast
      let is_root := ((st.def_map.modules.getD module_id default).parent).isNone
      match resolveSubmodule db file_id name is_root with
      | Except.ok f =>
        match pushChildModule st module_id name astF (some f) with
        | Option.none => Option.none
        | some (st', mid') =>
          collectItems db fuel mid' (HirFileId.file f)
            (db.rawItems (HirFileId.file f)) st'
      | Except.error candidate =>
        some { st with def_map := { st.def_map with
          diagnostics := st.def_map.diagnostics
            ++ [Diagnostic.UnresolvedModule module_id astF candidate] } }
termination_by structural fuel _ _ _ _ => fuel

/-- The macro arm of `ModCollector::collect` (`collect_macro` in the
source): define a `macro_rules`, expand a locally known macro, or queue a
cross-crate invocation. -/
def collectMacroData (db : Db) : Nat → ModuleId → HirFileId → MacroData →
    DefCollector → Option DefCollector
  | 0, _, _, _, _ => Option.none
  | Nat.succ fuel, module_id, file_id, mac, st =>
    if isMacroRules mac.path then
      -- Case 1: macro rules, define a macro in crate-global mutable scope
      match mac.name with
      | some name =>
        some (defineMacroDef st name (AstIdF.mk file_id mac.ast) mac.exported)
      | Option.none => some st
    else
      let astF := AstIdF.mk file_id mac.ast
      match mac.path.asIdent.bind (fun n => st.global_macro_scope n) with
      | some macro_id =>
        -- Case 2: expand macro_rules from this crate
        collectMacroExpansion db fuel module_id
          (MacroCallId.mk macro_id astF) macro_id st
      | Option.none =>
        -- Case 3: queue for resolution during the fixed-point loop
        some { st with unexpanded_macros :=
          st.unexpanded_macros ++ [(module_id, astF, mac.path)] }
termination_by structural fuel _ _ _ _ => fuel

/-- `DefCollector::collect_macro_expansion`. -/
def collectMacroExpansion (db : Db) : Nat → ModuleId → MacroCallId →
    MacroDefId → DefCollector → Option DefCollector
  | 0, _, _, _, _ => Option.none
  | Nat.succ fuel, module_id, call, macro_def_id, st =>
    if st.def_map.poison_macros macro_def_id then some st
    else
      let st := { st with macro_stack_monitor :=
        st.macro_stack_monitor.increase macro_def_id }
      if st.macro_stack_monitor.isPoison macro_def_id = false then
        let fid := call.asFile
        match collectItems db fuel module_id fid (db.rawItems fid) st with
        | Option.none => Option.none
        | some st' =>
          some { st' with macro_stack_monitor :=
            st'.macro_stack_monitor.decrease macro_def_id }
      else
        -- too deep macro expansion: poison the macro
        let st' := { st with def_map := { st.def_map with
          poison_macros := fun k =>
            (if k = macro_def_id then true else st.def_map.poison_macros k) } }
        some { st' with macro_stack_monitor :=
          st'.macro_stack_monitor.decrease macro_def_id }
termination_by structural fuel _ _ _ _ => fuel

end

/-- One entry of the `retain` scan of `DefCollector::resolve_macros`:
paths that are not two segments are kept; a known crate drops the entry
(and counts as progress), triggering the expansion when the macro is
published. -/
def resolveMacroScanStep (db : Db) (dm : CrateDefMap)
    (acc : List (ModuleId × AstIdF × Path)
      × List (ModuleId × MacroCallId × MacroDefId) × ReachedFixedPoint)
    (entry : ModuleId × AstIdF × Path) :
    List (ModuleId × AstIdF × Path)
      × List (ModuleId × MacroCallId × MacroDefId) × ReachedFixedPoint :=
  if entry.2.2.segments.length ≠ 2 then (acc.1 ++ [entry], acc.2.1, acc.2.2)
  else
    match (dm.resolveNameInExternPrelude
        (entry.2.2.segments.getD 0 default)).takeTypes with
    | some (ModuleDef.Module m) =>
      -- `m.krate(db)` always answers `Some(m.krate)`
      let krate := m.krate
      let dm2 := db.crateDefMap krate
      match dm2.public_macros (entry.2.2.segments.getD 1 default) with
      | some macro_id =>
        (acc.1, acc.2.1
          ++ [(entry.1, MacroCallId.mk macro_id entry.2.1, macro_id)],
          ReachedFixedPoint.No)
      | Option.none => (acc.1, acc.2.1, ReachedFixedPoint.No)
    | _ => (acc.1 ++ [entry], acc.2.1, acc.2.2)

/-- `DefCollector::resolve_macros`: take the pending macro queue out
with `mem::replace` (leaving it empty), scan it against the current
state, then run the triggered expansions in order.  The local vector of
entries the scan retains is never written back: it is dropped when the
function returns, so only entries pushed by the expansions themselves
end up in the queue. -/
def resolveMacros (db : Db) (fuel : Nat) (st : DefCollector) :
    Option (DefCollector × ReachedFixedPoint) :=
  let scan := st.unexpanded_macros.foldl
    (resolveMacroScanStep db st.def_map)
    ([], [], ReachedFixedPoint.Yes)
  let st1 := { st with unexpanded_macros := [] }
  match scan.2.1.foldlM
      (fun acc e => collectMacroExpansion db fuel e.1 e.2.1 e.2.2 acc) st1 with
  | Option.none => Option.none
  | some st2 => some (st2, scan.2.2)

/-- One round of the fixed-point loop: `resolve_imports` then
`resolve_macros`, with both progress flags. -/
def collectRound (db : Db) (fuel : Nat) (st : DefCollector) :
    Option (DefCollector × ReachedFixedPoint × ReachedFixedPoint) :=
  match resolveImports db st with
  | Option.none => Option.none
  | some (st1, fp1) =>
    match resolveMacros db fuel st1 with
    | Option.none => Option.none
    | some (st2, fp2) => some (st2, fp1, fp2)

/-- The fixed-point loop of `DefCollector::collect`.  `rem` counts the
iterations the 1000-round cap still allows (the loop starts with
`rem = 1000`, mirroring `i = 0`); the round at `rem = 1` is round 999,
after which `i` reaches 1000 and the loop logs and breaks. -/
def collectLoopAux (db : Db) (fuel : Nat) : Nat → DefCollector →
    Option DefCollector
  | 0, st => (collectRound db fuel st).map (fun t => t.1)
  | 1, st => (collectRound db fuel st).map (fun t => t.1)
  | Nat.succ (Nat.succ r), st =>
    match collectRound db fuel st with
    | Option.none => Option.none
    | some (st2, fp1, fp2) =>
      match fp1, fp2 with
      | ReachedFixedPoint.Yes, ReachedFixedPoint.Yes => some st2
      | _, _ => collectLoopAux db fuel (Nat.succ r) st2

/-- Instrumented variant of `collectLoopAux` that also reports the number
of rounds executed (each call of `resolve_imports`/`resolve_macros` pair
is one round). -/
def collectLoopCountAux (db : Db) (fuel : Nat) : Nat → DefCollector →
    Option (DefCollector × Nat)
  | 0, st => (collectRound db fuel st).map (fun t => (t.1, 1))
  | 1, st => (collectRound db fuel st).map (fun t => (t.1, 1))
  | Nat.succ (Nat.succ r), st =>
    match collectRound db fuel st with
    | Option.none => Option.none
    | some (st2, fp1, fp2) =>
      match fp1, fp2 with
      | ReachedFixedPoint.Yes, ReachedFixedPoint.Yes => some (st2, 1)
      | _, _ =>
        match collectLoopCountAux db fuel (Nat.succ r) st2 with
        | Option.none => Option.none
        | some (st3, k) => some (st3, k + 1)

/-- The flush after the loop: every import still pending is re-committed
with an empty `PerNs`. -/
def flushUnresolved (db : Db) (st : DefCollector) : Option DefCollector :=
  let pending := st.unresolved_imports
  let st1 := { st with unresolved_imports := [] }
  pending.foldlM
    (fun acc e => recordResolvedImport db acc e.1 PerNs.none' e.2.1 e.2.2) st1

/-- The part of `DefCollector::collect` after the initial seeding: the
fixed-point loop followed by the unresolved-import flush.  Two runs of
`collect` that differ only in the initial queue order are two `collectRest`
runs from states differing only in their queues. -/
def collectRest (db : Db) (fuel : Nat) (st : DefCollector) :
    Option DefCollector :=
  match collectLoopAux db fuel 1000 st with
  | Option.none => Option.none
  | some st' => flushUnresolved db st'

/-- `DefCollector::collect`: seed the root module from the crate root
file, loop to the fixed point, then flush. -/
def collect (db : Db) (fuel : Nat) (st : DefCollector) :
    Option DefCollector :=
  let file_id := db.crateRoot st.def_map.krate
  let module_id := st.def_map.root
  let md := st.def_map.modules.getD module_id default
  let st0 := { st with def_map := { st.def_map with
    modules := st.def_map.modules.set module_id
      { md with definition := some file_id } } }
  match collectItems db fuel module_id (HirFileId.file file_id)
      (db.rawItems (HirFileId.file file_id)) st0 with
  | Option.none => Option.none
  | some st1 => collectRest db fuel st1

/-- The type-namespace binding a scope holds for a name (the `or_default`
view the merge rule sees). -/
def scopeDefTypes (s : Scope) (n : Name) : Option ModuleDef :=
  ((s.lookup n).getD default).def_.types

/-- The value-namespace binding a scope holds for a name. -/
def scopeDefValues (s : Scope) (n : Name) : Option ModuleDef :=
  ((s.lookup n).getD default).def_.values

/-- The type-namespace binding module `m` holds for `n` in a collector
state. -/
def defTypesAt (st : DefCollector) (m : ModuleId) (n : Name) :
    Option ModuleDef :=
  scopeDefTypes (st.def_map.modules.getD m default).scope n

/-- The value-namespace binding module `m` holds for `n` in a collector
state. -/
def defValuesAt (st : DefCollector) (m : ModuleId) (n : Name) :
    Option ModuleDef :=
  scopeDefValues (st.def_map.modules.getD m default).scope n

/-- Monotonicity of the namespace slots between two collector states:
every binding present in the first is still present, unchanged, in the
second. -/
def slotsMono (st st' : DefCollector) : Prop :=
  (∀ m n v, defTypesAt st m n = some v → defTypesAt st' m n = some v) ∧
  (∀ m n v, defValuesAt st m n = some v → defValuesAt st' m n = some v)

-- Concrete fixtures used by witnesses and counterexamples are inserted
-- below; theorems follow them.

/-- A struct definition used by concrete examples. -/
def egDef1 : ModuleDef := ModuleDef.Struct ⟨⟨0, 0⟩, HirFileId.file 0, 1⟩

/-- A second, different definition used by concrete examples. -/
def egDef2 : ModuleDef := ModuleDef.Enum ⟨⟨0, 0⟩, HirFileId.file 0, 2⟩

/-- An empty crate def map over one root module with the given scope. -/
def egDefMap (scope : Scope) : CrateDefMap :=
  { krate := 0, extern_prelude := fun _ => Option.none, prelude := Option.none,
    root := 0, modules := [{ scope := scope }],
    public_macros := fun _ => Option.none,
    local_macros := fun _ => Option.none,
    poison_macros := fun _ => false, diagnostics := [] }

/-- A collector state over `egDefMap` with empty queues. -/
def egSt (scope : Scope) : DefCollector :=
  { def_map := egDefMap scope, glob_imports := fun _ => [],
    unresolved_imports := [], unexpanded_macros := [],
    global_macro_scope := fun _ => Option.none,
    macro_stack_monitor := ⟨fun _ => 0, Option.none⟩ }

/-- The scope entry holding `egDef1` in the type namespace. -/
def egRes1 : Resolution := ⟨⟨some egDef1, Option.none⟩, Option.none⟩

/-- A commit of `egDef2` into the type namespace of name `x`. -/
def egCommit : List (Name × Resolution) :=
  [("x", ⟨⟨some egDef2, Option.none⟩, Option.none⟩)]

/-- The result of committing `egCommit` over a scope already holding
`egDef1` at `x`. -/
def egSt2 : DefCollector :=
  (update (egSt [("x", egRes1)]) 0 Option.none egCommit).getD
    (egSt [("x", egRes1)])

/-- Poison stickiness between two collector states: every poisoned macro
id stays poisoned. -/
def poisonMono (st st' : DefCollector) : Prop :=
  ∀ k, st.def_map.poison_macros k = true → st'.def_map.poison_macros k = true

/-- A trivial database for concrete runs: no files, no dependencies, all
paths resolve to nothing, terminally. -/
def egDb : Db :=
  { crateRoot := fun _ => 0, rawItems := fun _ => [],
    crateDefMap := fun _ => egDefMap [], enumVariantNames := fun _ => [],
    resolvePathFp := fun _ _ _ => ⟨PerNs.none', ReachedFixedPoint.Yes⟩,
    fileRelativePath := fun _ => [], fileSourceRoot := fun _ => 0,
    sourceRootFiles := fun _ => [] }

/-- A macro definition id used by concrete examples. -/
def egMacroId : MacroDefId := ⟨HirFileId.file 0, 10⟩

/-- An invocation of `egMacroId`. -/
def egCall : MacroCallId := ⟨egMacroId, ⟨HirFileId.file 0, 11⟩⟩

/-- A state in which `egMacroId` is already poisoned. -/
def egStPoisoned : DefCollector :=
  { egSt [] with def_map := { egDefMap [] with
      poison_macros := fun k => (if k = egMacroId then true else false) } }

/-- A database whose macro expansion for `egCall` yields one struct named
`B`. -/
def egDb2 : Db :=
  { egDb with rawItems := fun fid =>
      (if fid = egCall.asFile then [RawItem.DefItem ⟨"B", DefKind.Struct 3⟩]
       else []) }

/-- A state whose live count for `egMacroId` is 99 (so the next invocation
reaches exactly 100). -/
def egSt99 : DefCollector :=
  { egSt [] with macro_stack_monitor :=
      ⟨fun k => (if k = egMacroId then 99 else 0), Option.none⟩ }

/-- A state whose live count for `egMacroId` is 100 (so the next
invocation reaches 101 and poisons). -/
def egSt100 : DefCollector :=
  { egSt [] with macro_stack_monitor :=
      ⟨fun k => (if k = egMacroId then 100 else 0), Option.none⟩ }

/-- Replace one module's scope (the state shape `update_recursive`
produces before considering propagation). -/
def setModuleScope (st : DefCollector) (module_id : ModuleId)
    (scope : Scope) : DefCollector :=
  { st with def_map := { st.def_map with
    modules := st.def_map.modules.set module_id
      { st.def_map.modules.getD module_id default with scope := scope } } }

/-- A commit that writes no namespace binding against the given scope:
wherever the incoming resolution carries a binding, the scope already has
one in that namespace. -/
def importOnlyCommit (scope : Scope) (rs : List (Name × Resolution)) :
    Prop :=
  ∀ p ∈ rs,
    (p.2.def_.types.isSome = true →
      (scopeDefTypes scope p.1).isSome = true) ∧
    (p.2.def_.values.isSome = true →
      (scopeDefValues scope p.1).isSome = true)

/-- A state with a root module, a second module subscribed (as a glob
importer) to the root, used to observe propagation. -/
def egStSub : DefCollector :=
  { def_map := { egDefMap [] with
      modules := [{ scope := [] }, { scope := [("y", egRes1)] }] },
    glob_imports := fun k => (if k = 0 then [(1, 9)] else []),
    unresolved_imports := [], unexpanded_macros := [],
    global_macro_scope := fun _ => Option.none,
    macro_stack_monitor := ⟨fun _ => 0, Option.none⟩ }

/-- An import-only commit: no bindings, just an import id. -/
def egImportOnlyRs : List (Name × Resolution) :=
  [("n", ⟨PerNs.none', some 3⟩)]

/-- Equality of everything in a collector state except the module arena
(scope updates leave all of this untouched). -/
def nonScopeEq (a b : DefCollector) : Prop :=
  a.def_map.krate = b.def_map.krate ∧
  a.def_map.extern_prelude = b.def_map.extern_prelude ∧
  a.def_map.prelude = b.def_map.prelude ∧
  a.def_map.root = b.def_map.root ∧
  a.def_map.public_macros = b.def_map.public_macros ∧
  a.def_map.local_macros = b.def_map.local_macros ∧
  a.def_map.poison_macros = b.def_map.poison_macros ∧
  a.def_map.diagnostics = b.def_map.diagnostics ∧
  a.glob_imports = b.glob_imports ∧
  a.unresolved_imports = b.unresolved_imports ∧
  a.unexpanded_macros = b.unexpanded_macros ∧
  a.global_macro_scope = b.global_macro_scope ∧
  a.macro_stack_monitor = b.macro_stack_monitor

/-- A resolved extern-crate target used by concrete examples. -/
def egModDef : ModuleDef := ModuleDef.Module ⟨1, 0⟩

/-- An extern-crate import of `dep`, no alias. -/
def egExtImp : ImportData :=
  ⟨⟨["dep"]⟩, Option.none, false, true, false⟩

/-- Committing `egExtImp` at the crate root. -/
def egStExtRoot : DefCollector :=
  (recordResolvedImport egDb (egSt []) 0 (PerNs.onlyTypes egModDef) 4
    egExtImp).getD (egSt [])

/-- The effect of re-committing one still-pending import with an empty
`PerNs` (the flush step), as an explicit state transformer: glob imports
and empty paths leave the state untouched; a non-glob import merges an
empty resolution carrying its import id into the owning module. -/
def flushResult (st : DefCollector) (m : ModuleId) (i : ImportId)
    (d : ImportData) : DefCollector :=
  if d.is_glob then st
  else
    match d.path.segments.getLast? with
    | Option.none => st
    | some last =>
      setModuleScope st m
        (updateScopeList (some i)
          [(d.alias_.getD last, ⟨PerNs.none', some i⟩)]
          (st.def_map.modules.getD m default).scope).1

/-- The state of the trivial database after one loop round (both flags
report no progress immediately). -/
def egLoopFinal : DefCollector :=
  ((collectRound egDb 1 (egSt [])).getD
    ((egSt []), ReachedFixedPoint.Yes, ReachedFixedPoint.Yes)).1

/-- A pending non-glob import of `x` aliased to `y`. -/
def egNonGlobImp : ImportData :=
  ⟨⟨["x"]⟩, some "y", false, false, false⟩

/-- A state with one pending non-glob import in the root module. -/
def egStNonGlobPending : DefCollector :=
  { egSt [] with unresolved_imports := [(0, 8, egNonGlobImp)] }

/-- The flush of `egStNonGlobPending`. -/
def egFlushedNonGlob : DefCollector :=
  (flushUnresolved egDb egStNonGlobPending).getD (egSt [])

/-- A state with one pending glob import of `m` in the root module. -/
def egGlobImp : ImportData := ⟨⟨["m"]⟩, Option.none, true, false, false⟩

/-- The pending-glob state used by the C5 counterexample. -/
def egStGlobPending : DefCollector :=
  { egSt [] with unresolved_imports := [(0, 7, egGlobImp)] }

/-- Queue growth between two collector states: every pending macro entry
of the first is still pending in the second (the pending-macro queue only
grows, apart from the scan that resolves two-segment paths). -/
def queueMono (st st' : DefCollector) : Prop :=
  ∀ e, e ∈ st.unexpanded_macros → e ∈ st'.unexpanded_macros

/-- A pending macro invocation with a three-segment path. -/
def egMacroEntry : ModuleId × AstIdF × Path :=
  (0, ⟨HirFileId.file 0, 5⟩, ⟨["a", "b", "c"]⟩)

/-- A state with `egMacroEntry` pending. -/
def egStMacroPending : DefCollector :=
  { egSt [] with unexpanded_macros := [egMacroEntry] }

/-- The end state of the loop-and-flush on `egStMacroPending`. -/
def egMacroFinal : DefCollector :=
  (collectRest egDb 1 egStMacroPending).getD (egSt [])

/-- The name a non-glob import binds in its owning module's scope
(`imp.alias.unwrap_or(last_segment)` in `record_resolved_import`). -/
def boundOf (e : ModuleId × ImportId × ImportData) : Name :=
  e.2.2.alias_.getD ((e.2.2.path.segments.getLast?).getD default)

/-- The `PerNs` a terminal import resolves to against the starting map
(`resolve_import` consults the pre-round map). -/
def resDefOf (db : Db) (dm0 : CrateDefMap)
    (e : ModuleId × ImportId × ImportData) : PerNs ModuleDef :=
  ResolveResult.resolved_def (db.resolvePathFp dm0 e.1 e.2.2.path)

/-- One terminal non-glob commit, exactly as `record_resolved_import`
performs it when no module has glob subscribers: merge the single-entry
resolution list into the owning module's scope. -/
def commitOne (db : Db) (dm0 : CrateDefMap) (acc : DefCollector)
    (e : ModuleId × ImportId × ImportData) : DefCollector :=
  setModuleScope acc e.1
    (updateScopeList (some e.2.1)
      [(boundOf e, ⟨resDefOf db dm0 e, some e.2.1⟩)]
      (acc.def_map.modules.getD e.1 default).scope).1

/-- First `some` of a list of options, read left to right. -/
def firstSome {α : Type _} (l : List (Option α)) : Option α :=
  (l.filterMap id).head?

/-- The type-namespace binding entry `e` contributes to slot `(m, n)` of
a map with `len` modules. -/
def typeContrib (db : Db) (dm0 : CrateDefMap) (len : Nat) (m : ModuleId)
    (n : Name) (e : ModuleId × ImportId × ImportData) : Option ModuleDef :=
  if m = e.1 ∧ e.1 < len ∧ n = boundOf e then (resDefOf db dm0 e).types
  else Option.none

/-- The value-namespace binding entry `e` contributes to slot `(m, n)` of
a map with `len` modules. -/
def valueContrib (db : Db) (dm0 : CrateDefMap) (len : Nat) (m : ModuleId)
    (n : Name) (e : ModuleId × ImportId × ImportData) : Option ModuleDef :=
  if m = e.1 ∧ e.1 < len ∧ n = boundOf e then (resDefOf db dm0 e).values
  else Option.none

/-- Conflict-freedom of a queue of terminal imports: any two imports into
the same module under the same bound name agree on every namespace
binding both provide. -/
def commitCompat (db : Db) (dm0 : CrateDefMap)
    (l : List (ModuleId × ImportId × ImportData)) : Prop :=
  ∀ e1 ∈ l, ∀ e2 ∈ l, e1.1 = e2.1 → boundOf e1 = boundOf e2 →
    (∀ t1 t2, (resDefOf db dm0 e1).types = some t1 →
      (resDefOf db dm0 e2).types = some t2 → t1 = t2) ∧
    (∀ v1 v2, (resDefOf db dm0 e1).values = some v1 →
      (resDefOf db dm0 e2).values = some v2 → v1 = v2)

/-- A pending import that is non-glob, not an extern crate, has a
nonempty path, and resolves terminally against the map `dm0`. -/
def terminalNonGlob (db : Db) (dm0 : CrateDefMap)
    (e : ModuleId × ImportId × ImportData) : Prop :=
  e.2.2.is_glob = false ∧ e.2.2.is_extern_crate = false ∧
  e.2.2.path.segments ≠ [] ∧
  (db.resolvePathFp dm0 e.1 e.2.2.path).reached_fixedpoint =
    ReachedFixedPoint.Yes

/-- An import of path `pa`, aliased to `n`. -/
def egImpA : ImportData := ⟨⟨["pa"]⟩, some "n", false, false, false⟩

/-- An import of path `pb`, also aliased to `n`: it conflicts with
`egImpA` in the type namespace. -/
def egImpB : ImportData := ⟨⟨["pb"]⟩, some "n", false, false, false⟩

/-- A database resolving `pa` to `egDef1` and `pb` to `egDef2`, both
terminally and independently of the current map. -/
def egDbC1 : Db :=
  { egDb with resolvePathFp := fun _ _ p =>
      (if p.segments = ["pa"] then
        ⟨PerNs.onlyTypes egDef1, ReachedFixedPoint.Yes⟩
       else if p.segments = ["pb"] then
        ⟨PerNs.onlyTypes egDef2, ReachedFixedPoint.Yes⟩
       else ⟨PerNs.none', ReachedFixedPoint.Yes⟩) }

/-- The conflicting pair queued with `egImpA` first. -/
def egStQ1 : DefCollector :=
  { egSt [] with unresolved_imports := [(0, 1, egImpA), (0, 2, egImpB)] }

/-- The conflicting pair queued with `egImpB` first. -/
def egStQ2 : DefCollector :=
  { egSt [] with unresolved_imports := [(0, 2, egImpB), (0, 1, egImpA)] }

/-- A one-import queue used to instantiate the order-independence
theorem. -/
def egStW1 : DefCollector :=
  { egSt [] with unresolved_imports := [(0, 1, egImpA)] }

section Theorems

theorem Scope.lookup_insertAt (s : Scope) (n k : Name) (r : Resolution) :
    (Scope.insertAt s n r).lookup k = if k = n then some r else s.lookup k := by
  induction s with
  | nil =>
    by_cases h : k = n
    · subst h; simp [Scope.insertAt, Scope.lookup]
    · simp [Scope.insertAt, Scope.lookup, h, Ne.symm h]
  | cons hd tl ih =>
    obtain ⟨hk, hv⟩ := hd
    by_cases h1 : hk = n <;> by_cases h2 : hk = k <;> by_cases h3 : k = n <;>
      simp_all [Scope.insertAt, Scope.lookup]

theorem mergeResolutionStep_types_mono (imp : Option ImportId)
    (res e : Resolution) (v : ModuleDef) (hv : e.def_.types = some v) :
    (mergeResolutionStep imp res e).1.def_.types = some v := by
  obtain ⟨⟨et, ev⟩, ei⟩ := e
  obtain ⟨⟨rt, rv⟩, ri⟩ := res
  simp only [Resolution.mk.injEq, PerNs.mk.injEq] at hv
  subst hv
  cases ev <;> cases rt <;> cases rv <;> cases ri <;> cases imp <;>
    simp [mergeResolutionStep, PerNs.isNone]

theorem mergeResolutionStep_values_mono (imp : Option ImportId)
    (res e : Resolution) (v : ModuleDef) (hv : e.def_.values = some v) :
    (mergeResolutionStep imp res e).1.def_.values = some v := by
  obtain ⟨⟨et, ev⟩, ei⟩ := e
  obtain ⟨⟨rt, rv⟩, ri⟩ := res
  simp only at hv
  subst hv
  cases et <;> cases rt <;> cases rv <;> cases ri <;> cases imp <;>
    simp [mergeResolutionStep, PerNs.isNone]

theorem mergeResolutionStep_empty_adopts_import (imp : Option ImportId)
    (res e : Resolution) (he : e.def_.isNone = true)
    (hr : res.def_.isNone = true) :
    (mergeResolutionStep imp res e).1.def_ = e.def_ ∧
    (mergeResolutionStep imp res e).1.importId =
      (if e.importId.isNone ∧ res.importId.isSome then res.importId
       else e.importId) := by
  obtain ⟨⟨et, ev⟩, ei⟩ := e
  obtain ⟨⟨rt, rv⟩, ri⟩ := res
  simp [PerNs.isNone] at he hr
  obtain ⟨he1, he2⟩ := he
  obtain ⟨hr1, hr2⟩ := hr
  subst he1; subst he2; subst hr1; subst hr2
  cases ei <;> cases ri <;> cases imp <;>
    simp [mergeResolutionStep, PerNs.isNone]

theorem mergeResolutionStep_idem (imp : Option ImportId) (res e : Resolution) :
    (mergeResolutionStep imp res (mergeResolutionStep imp res e).1).1 =
      (mergeResolutionStep imp res e).1 := by
  obtain ⟨⟨et, ev⟩, ei⟩ := e
  obtain ⟨⟨rt, rv⟩, ri⟩ := res
  cases et <;> cases ev <;> cases ei <;> cases rt <;> cases rv <;> cases ri <;>
    cases imp <;> simp [mergeResolutionStep, PerNs.isNone]

theorem updateScopeList_types_mono (imp : Option ImportId) :
    ∀ (rs : List (Name × Resolution)) (scope : Scope) (n : Name)
      (v : ModuleDef), scopeDefTypes scope n = some v →
      scopeDefTypes (updateScopeList imp rs scope).1 n = some v := by
  intro rs
  induction rs with
  | nil => intro scope n v h; simpa [updateScopeList] using h
  | cons p rest ih =>
    intro scope n v h
    obtain ⟨nm, r⟩ := p
    simp only [updateScopeList]
    apply ih
    by_cases hn : n = nm
    · subst hn
      simp only [scopeDefTypes, Scope.lookup_insertAt, if_pos rfl,
        Option.getD_some]
      exact mergeResolutionStep_types_mono imp r _ v h
    · simpa only [scopeDefTypes, Scope.lookup_insertAt, if_neg hn] using h

theorem updateScopeList_values_mono (imp : Option ImportId) :
    ∀ (rs : List (Name × Resolution)) (scope : Scope) (n : Name)
      (v : ModuleDef), scopeDefValues scope n = some v →
      scopeDefValues (updateScopeList imp rs scope).1 n = some v := by
  intro rs
  induction rs with
  | nil => intro scope n v h; simpa [updateScopeList] using h
  | cons p rest ih =>
    intro scope n v h
    obtain ⟨nm, r⟩ := p
    simp only [updateScopeList]
    apply ih
    by_cases hn : n = nm
    · subst hn
      simp only [scopeDefValues, Scope.lookup_insertAt, if_pos rfl,
        Option.getD_some]
      exact mergeResolutionStep_values_mono imp r _ v h
    · simpa only [scopeDefValues, Scope.lookup_insertAt, if_neg hn] using h

theorem modulesGetD_set_ne (l : List ModuleData) (i j : Nat) (a : ModuleData)
    (h : i ≠ j) : (l.set i a).getD j default = l.getD j default := by
  simp [List.getD_eq_getElem?_getD, List.getElem?_set_ne h]

theorem foldlM_option_rel {α σ : Type _} (R : σ → σ → Prop)
    (htrans : ∀ a b c, R a b → R b c → R a c)
    (hrefl : ∀ s, R s s) (f : σ → α → Option σ) :
    ∀ (l : List α) (s s' : σ),
      (∀ a s1 s2, a ∈ l → f s1 a = some s2 → R s1 s2) →
      l.foldlM f s = some s' → R s s' := by
  intro l
  induction l with
  | nil =>
    intro s s' _ h
    cases h
    exact hrefl s
  | cons a t ih =>
    intro s s' hstep h
    rw [show ((a :: t).foldlM f s = f s a >>= fun s1 => t.foldlM f s1)
      from rfl] at h
    cases hfa : f s a with
    | none => rw [hfa] at h; simp at h
    | some s1 =>
      rw [hfa] at h
      have h' : t.foldlM f s1 = some s' := h
      exact htrans _ _ _ (hstep a s s1 (by simp) hfa)
        (ih s1 s' (fun b u w hb hf => hstep b u w (by simp [hb]) hf) h')

theorem slotsMono_refl (st : DefCollector) : slotsMono st st :=
  ⟨fun _ _ _ h => h, fun _ _ _ h => h⟩

theorem slotsMono_trans (a b c : DefCollector) (h1 : slotsMono a b)
    (h2 : slotsMono b c) : slotsMono a c :=
  ⟨fun m n v h => h2.1 m n v (h1.1 m n v h),
   fun m n v h => h2.2 m n v (h1.2 m n v h)⟩

theorem set_scope_slotsMono (st : DefCollector) (m : ModuleId)
    (imp : Option ImportId) (rs : List (Name × Resolution)) :
    slotsMono st { st with def_map := { st.def_map with
      modules := st.def_map.modules.set m
        { st.def_map.modules.getD m default with
          scope := (updateScopeList imp rs
            (st.def_map.modules.getD m default).scope).1 } } } := by
  constructor
  · intro m2 n v hv
    by_cases hm : m = m2
    · subst hm
      simp only [defTypesAt] at hv ⊢
      by_cases hlt : m < st.def_map.modules.length
      · rw [List.getD_eq_getElem?_getD, List.getElem?_set_self hlt]
        exact updateScopeList_types_mono imp rs _ n v hv
      · rw [List.set_eq_of_length_le (Nat.le_of_not_lt hlt)]
        exact hv
    · simp only [defTypesAt]
      rw [modulesGetD_set_ne _ _ _ _ hm]
      exact hv
  · intro m2 n v hv
    by_cases hm : m = m2
    · subst hm
      simp only [defValuesAt] at hv ⊢
      by_cases hlt : m < st.def_map.modules.length
      · rw [List.getD_eq_getElem?_getD, List.getElem?_set_self hlt]
        exact updateScopeList_values_mono imp rs _ n v hv
      · rw [List.set_eq_of_length_le (Nat.le_of_not_lt hlt)]
        exact hv
    · simp only [defValuesAt]
      rw [modulesGetD_set_ne _ _ _ _ hm]
      exact hv

theorem updateRecAux_slotsMono :
    ∀ (fuel : Nat) (st : DefCollector) (module_id : ModuleId)
      (imp : Option ImportId) (rs : List (Name × Resolution)) (depth : Nat)
      (st' : DefCollector),
      updateRecAux fuel st module_id imp rs depth = some st' →
      slotsMono st st' := by
  intro fuel
  induction fuel with
  | zero => intro st m imp rs d st' h; simp [updateRecAux] at h
  | succ f ih =>
    intro st m imp rs d st' h
    simp only [updateRecAux] at h
    by_cases hd : d > 100
    · simp [hd] at h
    · simp only [if_neg hd] at h
      have base := set_scope_slotsMono st m imp rs
      cases hupd : (updateScopeList imp rs
          (st.def_map.modules.getD m default).scope).2 with
      | false =>
        rw [hupd] at h
        simp only [Bool.false_eq_true, if_false] at h
        cases h
        exact base
      | true =>
        rw [hupd] at h
        simp only [if_true] at h
        exact slotsMono_trans _ _ _ base
          (foldlM_option_rel slotsMono slotsMono_trans slotsMono_refl _ _ _ _
            (fun a s1 s2 _ hf => ih s1 a.1 (some a.2) rs (d + 1) s2 hf) h)

/-- C2: the merge rule is monotonic — a filled namespace slot (types or
values) anywhere in the map is never changed or cleared by any commit
(`update_recursive`, hence plain definitions, non-glob imports and glob
propagation alike); when both the existing and the incoming entry have no
binding in either namespace, the incoming import id is adopted exactly
when the existing entry has none; and one merge step is idempotent. -/
theorem merge_rule_monotonic :
    (∀ (fuel : Nat) (st : DefCollector) (module_id : ModuleId)
       (imp : Option ImportId) (rs : List (Name × Resolution)) (depth : Nat)
       (st' : DefCollector),
       updateRecAux fuel st module_id imp rs depth = some st' →
       slotsMono st st') ∧
    (∀ (imp : Option ImportId) (res e : Resolution),
       e.def_.isNone = true → res.def_.isNone = true →
       (mergeResolutionStep imp res e).1.def_ = e.def_ ∧
       (mergeResolutionStep imp res e).1.importId =
         (if e.importId.isNone ∧ res.importId.isSome then res.importId
          else e.importId)) ∧
    (∀ (imp : Option ImportId) (res e : Resolution),
       (mergeResolutionStep imp res (mergeResolutionStep imp res e).1).1 =
         (mergeResolutionStep imp res e).1) :=
  ⟨updateRecAux_slotsMono, mergeResolutionStep_empty_adopts_import,
    mergeResolutionStep_idem⟩

/-- Witness for C2: committing `egDef2` over a slot already holding
`egDef1` leaves `egDef1` in place, and an empty-on-empty merge adopts the
incoming import id. -/
theorem merge_rule_monotonic_witness :
    defTypesAt egSt2 0 "x" = some egDef1 ∧
    (mergeResolutionStep (some 5) ⟨PerNs.none', some 7⟩
      ⟨PerNs.none', Option.none⟩).1.importId = some 7 := by
  constructor
  · exact (merge_rule_monotonic.1 102 (egSt [("x", egRes1)]) 0 Option.none
      egCommit 0 egSt2 rfl).1 0 "x" egDef1 rfl
  · exact ((merge_rule_monotonic.2.1 (some 5) ⟨PerNs.none', some 7⟩
      ⟨PerNs.none', Option.none⟩ rfl rfl).2).trans (by decide)

/-- C7: the namespace classification of `define_def` — structs and unions
occupy both namespaces, enums, traits and type aliases only the type
namespace, functions, consts and statics only the value namespace, and the
committed `Resolution` carries no originating import id. -/
theorem define_def_classification :
    ∀ (module : ModuleRef) (file : HirFileId) (ast : Nat),
      ((defKindToPerNs module file (DefKind.Struct ast)).types.isSome = true ∧
        (defKindToPerNs module file (DefKind.Struct ast)).values.isSome = true) ∧
      ((defKindToPerNs module file (DefKind.Union ast)).types.isSome = true ∧
        (defKindToPerNs module file (DefKind.Union ast)).values.isSome = true) ∧
      ((defKindToPerNs module file (DefKind.Enum ast)).types.isSome = true ∧
        (defKindToPerNs module file (DefKind.Enum ast)).values = Option.none) ∧
      ((defKindToPerNs module file (DefKind.Function ast)).types = Option.none ∧
        (defKindToPerNs module file (DefKind.Function ast)).values.isSome = true) ∧
      ((defKindToPerNs module file (DefKind.Const ast)).types = Option.none ∧
        (defKindToPerNs module file (DefKind.Const ast)).values.isSome = true) ∧
      ((defKindToPerNs module file (DefKind.Static ast)).types = Option.none ∧
        (defKindToPerNs module file (DefKind.Static ast)).values.isSome = true) ∧
      ((defKindToPerNs module file (DefKind.Trait ast)).types.isSome = true ∧
        (defKindToPerNs module file (DefKind.Trait ast)).values = Option.none) ∧
      ((defKindToPerNs module file (DefKind.TypeAlias ast)).types.isSome = true ∧
        (defKindToPerNs module file (DefKind.TypeAlias ast)).values = Option.none) ∧
      (∀ (st : DefCollector) (mid : ModuleId) (fid : HirFileId) (d : DefData),
        defineDef st mid fid d = update st mid Option.none
          [(d.name, Resolution.mk
            (defKindToPerNs ⟨st.def_map.krate, mid⟩ fid d.kind)
            Option.none)]) := by
  intro module file ast
  refine ⟨⟨rfl, rfl⟩, ⟨rfl, rfl⟩, ⟨rfl, rfl⟩, ⟨rfl, rfl⟩, ⟨rfl, rfl⟩,
    ⟨rfl, rfl⟩, ⟨rfl, rfl⟩, ⟨rfl, rfl⟩, fun st mid fid d => rfl⟩

theorem updateRecAux_poison_eq :
    ∀ (fuel : Nat) (st : DefCollector) (m : ModuleId) (imp : Option ImportId)
      (rs : List (Name × Resolution)) (d : Nat) (st' : DefCollector),
      updateRecAux fuel st m imp rs d = some st' →
      st'.def_map.poison_macros = st.def_map.poison_macros := by
  intro fuel
  induction fuel with
  | zero => intro st m imp rs d st' h; simp [updateRecAux] at h
  | succ f ih =>
    intro st m imp rs d st' h
    simp only [updateRecAux] at h
    by_cases hd : d > 100
    · simp [hd] at h
    · simp only [if_neg hd] at h
      cases hupd : (updateScopeList imp rs
          (st.def_map.modules.getD m default).scope).2 with
      | false =>
        rw [hupd] at h
        simp only [Bool.false_eq_true, if_false] at h
        cases h
        rfl
      | true =>
        rw [hupd] at h
        simp only [if_true] at h
        have hfold := foldlM_option_rel
          (fun (a b : DefCollector) =>
            b.def_map.poison_macros = a.def_map.poison_macros)
          (fun a b c h1 h2 => h2.trans h1) (fun _ => rfl) _ _ _ _
          (fun (a : ModuleId × ImportId) (s1 s2 : DefCollector) _ hf =>
            ih s1 a.1 (some a.2) rs (d + 1) s2 hf) h
        exact hfold

theorem recordResolvedImport_poison_eq (db : Db) (st : DefCollector)
    (m : ModuleId) (def_ : PerNs ModuleDef) (iid : ImportId)
    (imp : ImportData) (st' : DefCollector)
    (h : recordResolvedImport db st m def_ iid imp = some st') :
    st'.def_map.poison_macros = st.def_map.poison_macros := by
  simp only [recordResolvedImport] at h
  split at h
  · -- glob branch
    split at h
    · -- Module target
      rename_i mref heq
      split at h
      · cases h; rfl
      · split at h
        · exact updateRecAux_poison_eq _ _ _ _ _ _ _ h
        · -- same-crate glob: update then subscribe
          cases hu : update st m (some iid)
              (st.def_map.modules.getD mref.module_id default).scope with
          | none => rw [hu] at h; cases h
          | some st2 =>
            rw [hu] at h
            cases h
            show st2.def_map.poison_macros = st.def_map.poison_macros
            exact updateRecAux_poison_eq _ _ _ _ _ _ _ hu
    · exact updateRecAux_poison_eq _ _ _ _ _ _ _ h
    · cases h; rfl
    · cases h; rfl
  · -- non-glob branch
    split at h
    · refine (updateRecAux_poison_eq _ _ _ _ _ _ _ h).trans ?_
      split
      · split <;> rfl
      · rfl
    · cases h; rfl

theorem poisonMono_refl (st : DefCollector) : poisonMono st st :=
  fun _ hk => hk

theorem poisonMono_trans (a b c : DefCollector) (h1 : poisonMono a b)
    (h2 : poisonMono b c) : poisonMono a c :=
  fun k hk => h2 k (h1 k hk)

theorem defineMacroDef_poison_eq (st : DefCollector) (n : Name)
    (id : MacroDefId) (e : Bool) :
    (defineMacroDef st n id e).def_map.poison_macros =
      st.def_map.poison_macros := by
  simp only [defineMacroDef]
  split <;> rfl

theorem pushChildModule_poison_eq (st : DefCollector) (m : ModuleId)
    (n : Name) (decl : AstIdF) (defn : Option FileId)
    (pr : DefCollector × ModuleId)
    (h : pushChildModule st m n decl defn = some pr) :
    pr.1.def_map.poison_macros = st.def_map.poison_macros := by
  simp only [pushChildModule] at h
  split at h
  · exact Option.noConfusion h
  · rename_i st2 heq
    cases h
    have h2 := updateRecAux_poison_eq _ _ _ _ _ _ _ heq
    exact h2

theorem collectFns_poisonMono : ∀ (fuel : Nat),
    (∀ (db : Db) (m : ModuleId) (fid : HirFileId) (items : List RawItem)
       (st st' : DefCollector),
       collectItems db fuel m fid items st = some st' → poisonMono st st') ∧
    (∀ (db : Db) (m : ModuleId) (fid : HirFileId) (md : RawModuleData)
       (st st' : DefCollector),
       collectModule db fuel m fid md st = some st' → poisonMono st st') ∧
    (∀ (db : Db) (m : ModuleId) (fid : HirFileId) (mac : MacroData)
       (st st' : DefCollector),
       collectMacroData db fuel m fid mac st = some st' → poisonMono st st') ∧
    (∀ (db : Db) (m : ModuleId) (c : MacroCallId) (id : MacroDefId)
       (st st' : DefCollector),
       collectMacroExpansion db fuel m c id st = some st' →
       poisonMono st st') := by
  intro fuel
  induction fuel with
  | zero =>
    refine ⟨?_, ?_, ?_, ?_⟩ <;>
      · intro db m fid x st st' h
        simp [collectItems, collectModule, collectMacroData,
          collectMacroExpansion] at h
  | succ f ih =>
    obtain ⟨ihI, ihM, ihD, ihE⟩ := ih
    refine ⟨?_, ?_, ?_, ?_⟩
    · -- collectItems
      intro db m fid items st st' h
      cases items with
      | nil =>
        simp only [collectItems] at h
        cases h
        exact poisonMono_refl _
      | cons item rest =>
        cases item with
        | ModuleItem md =>
          simp only [collectItems] at h
          cases hmid : collectModule db f m fid md st with
          | none => rw [hmid] at h; exact Option.noConfusion h
          | some stM =>
            rw [hmid] at h
            exact poisonMono_trans _ _ _ (ihM _ _ _ _ _ _ hmid)
              (ihI _ _ _ _ _ _ h)
        | ImportItem iid idata =>
          simp only [collectItems] at h
          exact fun k hk => (ihI _ _ _ _ _ _ h) k hk
        | DefItem d =>
          simp only [collectItems] at h
          cases hmid : defineDef st m fid d with
          | none => rw [hmid] at h; exact Option.noConfusion h
          | some stM =>
            rw [hmid] at h
            refine poisonMono_trans _ _ _ ?_ (ihI _ _ _ _ _ _ h)
            intro k hk
            rw [updateRecAux_poison_eq _ _ _ _ _ _ _ hmid]
            exact hk
        | MacroItem mac =>
          simp only [collectItems] at h
          cases hmid : collectMacroData db f m fid mac st with
          | none => rw [hmid] at h; exact Option.noConfusion h
          | some stM =>
            rw [hmid] at h
            exact poisonMono_trans _ _ _ (ihD _ _ _ _ _ _ hmid)
              (ihI _ _ _ _ _ _ h)
    · -- collectModule
      intro db m fid md st st' h
      cases md with
      | Definition name ast items =>
        simp only [collectModule] at h
        cases hp : pushChildModule st m name (AstIdF.mk fid ast)
            Option.none with
        | none => rw [hp] at h; exact Option.noConfusion h
        | some pr =>
          rw [hp] at h
          refine poisonMono_trans _ _ _ ?_ (ihI _ _ _ _ _ _ h)
          intro k hk
          rw [pushChildModule_poison_eq _ _ _ _ _ _ hp]
          exact hk
      | Declaration name ast =>
        simp only [collectModule] at h
        split at h
        · rename_i fres hres
          cases hp : pushChildModule st m name (AstIdF.mk fid ast)
              (some fres) with
          | none => rw [hp] at h; exact Option.noConfusion h
          | some pr =>
            rw [hp] at h
            refine poisonMono_trans _ _ _ ?_ (ihI _ _ _ _ _ _ h)
            intro k hk
            rw [pushChildModule_poison_eq _ _ _ _ _ _ hp]
            exact hk
        · cases h
          exact fun k hk => hk
    · -- collectMacroData
      intro db m fid mac st st' h
      simp only [collectMacroData] at h
      split at h
      · split at h
        · cases h
          intro k hk
          rw [defineMacroDef_poison_eq]
          exact hk
        · cases h
          exact poisonMono_refl _
      · split at h
        · exact ihE _ _ _ _ _ _ h
        · cases h
          exact fun k hk => hk
    · -- collectMacroExpansion
      intro db m c id st st' h
      simp only [collectMacroExpansion] at h
      split at h
      · cases h
        exact poisonMono_refl _
      · split at h
        · cases hci : collectItems db f m c.asFile
              (db.rawItems c.asFile)
              { st with macro_stack_monitor :=
                st.macro_stack_monitor.increase id } with
          | none => rw [hci] at h; exact Option.noConfusion h
          | some st2 =>
            rw [hci] at h
            cases h
            exact fun k hk => (ihI _ _ _ _ _ _ hci) k hk
        · cases h
          intro k hk
          show (if k = id then true else st.def_map.poison_macros k) = true
          split
          · rfl
          · exact hk

theorem resolveImports_poison_eq (db : Db) (st st' : DefCollector)
    (fp : ReachedFixedPoint) (h : resolveImports db st = some (st', fp)) :
    st'.def_map.poison_macros = st.def_map.poison_macros := by
  simp only [resolveImports] at h
  split at h
  · exact Option.noConfusion h
  · rename_i decisions hdec
    split at h
    · exact Option.noConfusion h
    · rename_i st2 hfold
      cases h
      have h2 := foldlM_option_rel
        (fun (a b : DefCollector) =>
          b.def_map.poison_macros = a.def_map.poison_macros)
        (fun a b c h1 h2 => h2.trans h1) (fun _ => rfl) _ _ _ _
        (fun a s1 s2 _ hf =>
          recordResolvedImport_poison_eq db s1 a.1.1 a.2.1 a.1.2.1 a.1.2.2
            s2 hf) hfold
      exact h2

theorem resolveMacros_poisonMono (db : Db) (fuel : Nat) (st st' : DefCollector)
    (fp : ReachedFixedPoint) (h : resolveMacros db fuel st = some (st', fp)) :
    poisonMono st st' := by
  simp only [resolveMacros] at h
  split at h
  · exact Option.noConfusion h
  · rename_i st2 hfold
    cases h
    have h2 := foldlM_option_rel poisonMono poisonMono_trans poisonMono_refl
      _ _ _ _
      (fun a s1 s2 _ hf =>
        (collectFns_poisonMono fuel).2.2.2 db a.1 a.2.1 a.2.2 s1 s2 hf) hfold
    exact fun k hk => h2 k hk

theorem collectRound_poisonMono (db : Db) (fuel : Nat)
    (st : DefCollector) (t : DefCollector × ReachedFixedPoint × ReachedFixedPoint)
    (h : collectRound db fuel st = some t) : poisonMono st t.1 := by
  simp only [collectRound] at h
  split at h
  · exact Option.noConfusion h
  · rename_i st1 fp1 hri
    split at h
    · exact Option.noConfusion h
    · rename_i st2 fp2 hrm
      cases h
      exact poisonMono_trans _ _ _
        (fun k hk => by
          rw [resolveImports_poison_eq db st st1 fp1 hri]; exact hk)
        (resolveMacros_poisonMono db fuel st1 st2 fp2 hrm)

theorem collectLoopAux_poisonMono (db : Db) (fuel : Nat) :
    ∀ (rem : Nat) (st st' : DefCollector),
      collectLoopAux db fuel rem st = some st' → poisonMono st st' := by
  intro rem
  induction rem using Nat.strong_induction_on with
  | _ rem ih =>
    intro st st' h
    match rem with
    | 0 =>
      simp only [collectLoopAux] at h
      cases hr : collectRound db fuel st with
      | none => rw [hr] at h; exact Option.noConfusion h
      | some t =>
        rw [hr] at h
        cases h
        exact collectRound_poisonMono db fuel st t hr
    | 1 =>
      simp only [collectLoopAux] at h
      cases hr : collectRound db fuel st with
      | none => rw [hr] at h; exact Option.noConfusion h
      | some t =>
        rw [hr] at h
        cases h
        exact collectRound_poisonMono db fuel st t hr
    | Nat.succ (Nat.succ r) =>
      simp only [collectLoopAux] at h
      split at h
      · exact Option.noConfusion h
      · rename_i st2 fp1 fp2 hr
        have base := collectRound_poisonMono db fuel st (st2, fp1, fp2) hr
        split at h
        · cases h; exact base
        · exact poisonMono_trans _ _ _ base (ih _ (by omega) _ _ h)

theorem flushUnresolved_poison_eq (db : Db) (st st' : DefCollector)
    (h : flushUnresolved db st = some st') :
    st'.def_map.poison_macros = st.def_map.poison_macros := by
  simp only [flushUnresolved] at h
  have h2 := foldlM_option_rel
    (fun (a b : DefCollector) =>
      b.def_map.poison_macros = a.def_map.poison_macros)
    (fun a b c h1 h2 => h2.trans h1) (fun _ => rfl) _ _ _ _
    (fun a s1 s2 _ hf =>
      recordResolvedImport_poison_eq db s1 a.1 PerNs.none' a.2.1 a.2.2 s2 hf) h
  exact h2

theorem collect_poisonMono (db : Db) (fuel : Nat) (st st' : DefCollector)
    (h : collect db fuel st = some st') : poisonMono st st' := by
  simp only [collect] at h
  split at h
  · exact Option.noConfusion h
  · rename_i st1 hitems
    simp only [collectRest] at h
    split at h
    · exact Option.noConfusion h
    · rename_i st2 hloop
      intro k hk
      rw [flushUnresolved_poison_eq db st2 st' h]
      refine collectLoopAux_poisonMono db fuel 1000 st1 st2 hloop k ?_
      exact ((collectFns_poisonMono fuel).1 _ _ _ _ _ _ hitems) k hk

/-- C6: once a macro definition id is poisoned, an invocation of it is
skipped entirely — the state (monitor count included) is returned
unchanged — and poison status, once set, persists through every step of
the pass (`collect` never clears it). -/
theorem poisoned_macro_skipped :
    (∀ (db : Db) (fuel : Nat) (module_id : ModuleId) (call : MacroCallId)
       (id : MacroDefId) (st : DefCollector),
       st.def_map.poison_macros id = true →
       collectMacroExpansion db (fuel + 1) module_id call id st = some st) ∧
    (∀ (db : Db) (fuel : Nat) (st st' : DefCollector),
       collect db fuel st = some st' → poisonMono st st') := by
  constructor
  · intro db fuel module_id call id st hp
    simp [collectMacroExpansion, hp]
  · exact collect_poisonMono

/-- Counterexample for C3 as stated: with the default threshold, an
invocation whose resulting count is exactly 100 (not strictly below 100)
is nevertheless expanded — the struct `B` from the expansion is collected
and the macro is not poisoned. -/
theorem macro_threshold_counterexample :
    (collectMacroExpansion egDb2 3 0 egCall egMacroId egSt99).map
        (fun s => (s.def_map.poison_macros egMacroId,
          (defTypesAt s 0 "B").isSome)) = some (false, true) := by
  decide

/-- C3 amended: for an invocation of a non-poisoned macro with no test
validator installed, the count is incremented and the expansion is
collected if and only if the resulting count does not exceed 100; when it
exceeds 100 the expansion is skipped and the id is permanently added to
the poisoned set (the live count is decremented again on the way out in
both branches). -/
theorem macro_expansion_threshold (db : Db) (f : Nat) (m : ModuleId)
    (call : MacroCallId) (id : MacroDefId) (st : DefCollector)
    (hp : st.def_map.poison_macros id = false)
    (hv : st.macro_stack_monitor.validator = Option.none) :
    (st.macro_stack_monitor.counts id + 1 ≤ 100 →
      collectMacroExpansion db (f + 1) m call id st =
        (collectItems db f m call.asFile (db.rawItems call.asFile)
          { st with macro_stack_monitor :=
              st.macro_stack_monitor.increase id }).map
          (fun s => { s with macro_stack_monitor :=
            s.macro_stack_monitor.decrease id })) ∧
    (st.macro_stack_monitor.counts id + 1 > 100 →
      collectMacroExpansion db (f + 1) m call id st =
        some { st with
          def_map := { st.def_map with poison_macros := fun k =>
            (if k = id then true else st.def_map.poison_macros k) },
          macro_stack_monitor :=
            (st.macro_stack_monitor.increase id).decrease id }) := by
  have hcur : (st.macro_stack_monitor.increase id).counts id =
      st.macro_stack_monitor.counts id + 1 := by
    simp [MacroStackMonitor.increase]
  have hpois : ((st.macro_stack_monitor.increase id).isPoison id) =
      decide (st.macro_stack_monitor.counts id + 1 > 100) := by
    simp [MacroStackMonitor.isPoison, MacroStackMonitor.increase, hv]
  constructor
  · intro hle
    have hfalse : ((st.macro_stack_monitor.increase id).isPoison id) = false := by
      rw [hpois]; simpa using Nat.not_lt.mpr hle
    simp only [collectMacroExpansion, hp, Bool.false_eq_true, if_false,
      hfalse]
    cases hci : collectItems db f m call.asFile (db.rawItems call.asFile)
        { st with macro_stack_monitor :=
          st.macro_stack_monitor.increase id } with
    | none => simp [hci]
    | some st2 => simp [hci]
  · intro hgt
    have htrue : ((st.macro_stack_monitor.increase id).isPoison id) = true := by
      rw [hpois]; simpa using hgt
    simp only [collectMacroExpansion, hp, Bool.false_eq_true, if_false,
      htrue]
    rfl

/-- Witness for the amended C3: at live count 99 the invocation is
expanded (count 100 is not over the threshold); at live count 100 it is
poisoned instead. -/
theorem macro_expansion_threshold_witness :
    collectMacroExpansion egDb2 3 0 egCall egMacroId egSt99 =
      (collectItems egDb2 2 0 egCall.asFile (egDb2.rawItems egCall.asFile)
        { egSt99 with macro_stack_monitor :=
            egSt99.macro_stack_monitor.increase egMacroId }).map
        (fun s => { s with macro_stack_monitor :=
          s.macro_stack_monitor.decrease egMacroId }) ∧
    collectMacroExpansion egDb2 3 0 egCall egMacroId egSt100 =
      some { egSt100 with
        def_map := { egSt100.def_map with poison_macros := fun k =>
          (if k = egMacroId then true else
            egSt100.def_map.poison_macros k) },
        macro_stack_monitor :=
          (egSt100.macro_stack_monitor.increase egMacroId).decrease
            egMacroId } :=
  ⟨(macro_expansion_threshold egDb2 2 0 egCall egMacroId egSt99 rfl rfl).1
      (by decide),
   (macro_expansion_threshold egDb2 2 0 egCall egMacroId egSt100 rfl rfl).2
      (by decide)⟩

/-- Witness for C6: invoking the poisoned `egMacroId` leaves the concrete
state untouched. -/
theorem poisoned_macro_skipped_witness :
    collectMacroExpansion egDb 1 0 egCall egMacroId egStPoisoned =
      some egStPoisoned :=
  poisoned_macro_skipped.1 egDb 0 0 egCall egMacroId egStPoisoned (by decide)

theorem mergeResolutionStep_no_write (imp : Option ImportId)
    (r e : Resolution)
    (ht : r.def_.types.isSome = true → e.def_.types.isSome = true)
    (hv : r.def_.values.isSome = true → e.def_.values.isSome = true) :
    (mergeResolutionStep imp r e).2 = false ∧
    (mergeResolutionStep imp r e).1.def_ = e.def_ := by
  obtain ⟨⟨et, ev⟩, ei⟩ := e
  obtain ⟨⟨rt, rv⟩, ri⟩ := r
  cases et <;> cases ev <;> cases rt <;> cases rv <;> cases ei <;>
    cases ri <;> cases imp <;>
    simp_all [mergeResolutionStep, PerNs.isNone]

theorem updateScopeList_no_write (imp : Option ImportId) :
    ∀ (rs : List (Name × Resolution)) (scope : Scope),
      importOnlyCommit scope rs →
      (updateScopeList imp rs scope).2 = false ∧
      (∀ n, scopeDefTypes (updateScopeList imp rs scope).1 n =
          scopeDefTypes scope n ∧
        scopeDefValues (updateScopeList imp rs scope).1 n =
          scopeDefValues scope n) := by
  intro rs
  induction rs with
  | nil => intro scope _; simp [updateScopeList]
  | cons p rest ih =>
    intro scope hcond
    obtain ⟨nm, r⟩ := p
    have hp := hcond (nm, r) (by simp)
    have hm := mergeResolutionStep_no_write imp r
      ((Scope.lookup scope nm).getD default) hp.1 hp.2
    have hscope' : ∀ n,
        scopeDefTypes (Scope.insertAt scope nm
          (mergeResolutionStep imp r
            ((Scope.lookup scope nm).getD default)).1) n =
          scopeDefTypes scope n ∧
        scopeDefValues (Scope.insertAt scope nm
          (mergeResolutionStep imp r
            ((Scope.lookup scope nm).getD default)).1) n =
          scopeDefValues scope n := by
      intro n
      by_cases hn : n = nm
      · subst hn
        simp [scopeDefTypes, scopeDefValues, Scope.lookup_insertAt, hm.2]
      · simp [scopeDefTypes, scopeDefValues, Scope.lookup_insertAt, hn]
    have hrest := ih
      (Scope.insertAt scope nm
        (mergeResolutionStep imp r
          ((Scope.lookup scope nm).getD default)).1)
      (fun q hq => by
        have hcq := hcond q (by simp [hq])
        exact ⟨fun hh => ((hscope' q.1).1).symm ▸ hcq.1 hh,
          fun hh => ((hscope' q.1).2).symm ▸ hcq.2 hh⟩)
    constructor
    · show ((mergeResolutionStep imp r
        ((Scope.lookup scope nm).getD default)).2 ||
          (updateScopeList imp rest _).2) = false
      rw [hm.1, hrest.1]
      rfl
    · intro n
      exact ⟨(hrest.2 n).1.trans (hscope' n).1,
        (hrest.2 n).2.trans (hscope' n).2⟩

theorem updateRecAux_no_write (fuel : Nat) (st : DefCollector)
    (module_id : ModuleId) (imp : Option ImportId)
    (rs : List (Name × Resolution)) (d : Nat) (hd : ¬ d > 100)
    (hflag : (updateScopeList imp rs
      (st.def_map.modules.getD module_id default).scope).2 = false) :
    updateRecAux (fuel + 1) st module_id imp rs d =
      some (setModuleScope st module_id
        (updateScopeList imp rs
          (st.def_map.modules.getD module_id default).scope).1) := by
  simp only [updateRecAux]
  simp only [if_neg hd]
  simp only [hflag, Bool.false_eq_true, if_false]
  rfl

/-- C10: a commit that writes no namespace binding (it at most adopts
an import id into an empty entry) does not set the `changed` flag, so it is
not propagated: the resulting state is exactly the committed module's
scope update, and every other module's scope — in particular every glob
subscriber's — is untouched. -/
theorem import_only_commit_not_propagated :
    ∀ (st : DefCollector) (module_id : ModuleId) (imp : Option ImportId)
      (rs : List (Name × Resolution)),
      importOnlyCommit (st.def_map.modules.getD module_id default).scope
        rs →
      (updateScopeList imp rs
        (st.def_map.modules.getD module_id default).scope).2 = false ∧
      update st module_id imp rs = some (setModuleScope st module_id
        (updateScopeList imp rs
          (st.def_map.modules.getD module_id default).scope).1) ∧
      (∀ st', update st module_id imp rs = some st' →
        ∀ m, m ≠ module_id →
          (st'.def_map.modules.getD m default).scope =
            (st.def_map.modules.getD m default).scope) := by
  intro st module_id imp rs hcond
  have hflag := (updateScopeList_no_write imp rs
    (st.def_map.modules.getD module_id default).scope hcond).1
  have hupd : update st module_id imp rs = some (setModuleScope st module_id
      (updateScopeList imp rs
        (st.def_map.modules.getD module_id default).scope).1) :=
    updateRecAux_no_write 101 st module_id imp rs 0 (by omega) hflag
  refine ⟨hflag, hupd, ?_⟩
  intro st' hst' m hm
  rw [hupd] at hst'
  cases hst'
  show ((st.def_map.modules.set module_id _).getD m default).scope = _
  rw [modulesGetD_set_ne _ _ _ _ (fun hh => hm hh.symm)]

/-- Witness for C10: committing a pure import id to the root of `egStSub`
does not propagate to subscriber module 1, whose scope is unchanged. -/
theorem import_only_commit_not_propagated_witness :
    (updateScopeList (some 3) egImportOnlyRs
      (egStSub.def_map.modules.getD 0 default).scope).2 = false ∧
    (∀ st', update egStSub 0 (some 3) egImportOnlyRs = some st' →
      ∀ m, m ≠ 0 →
        (st'.def_map.modules.getD m default).scope =
          (egStSub.def_map.modules.getD m default).scope) :=
  have h := import_only_commit_not_propagated egStSub 0 (some 3)
    egImportOnlyRs (by
      intro p hp
      simp only [egImportOnlyRs, List.mem_singleton] at hp
      subst hp
      exact ⟨by simp [PerNs.none'], by simp [PerNs.none']⟩)
  ⟨h.1, h.2.2⟩

theorem updateRecAux_nonScopeEq :
    ∀ (fuel : Nat) (st : DefCollector) (m : ModuleId) (imp : Option ImportId)
      (rs : List (Name × Resolution)) (d : Nat) (st' : DefCollector),
      updateRecAux fuel st m imp rs d = some st' → nonScopeEq st' st := by
  intro fuel
  induction fuel with
  | zero => intro st m imp rs d st' h; simp [updateRecAux] at h
  | succ f ih =>
    intro st m imp rs d st' h
    simp only [updateRecAux] at h
    by_cases hd : d > 100
    · simp [hd] at h
    · simp only [if_neg hd] at h
      cases hupd : (updateScopeList imp rs
          (st.def_map.modules.getD m default).scope).2 with
      | false =>
        rw [hupd] at h
        simp only [Bool.false_eq_true, if_false] at h
        cases h
        exact ⟨rfl, rfl, rfl, rfl, rfl, rfl, rfl, rfl, rfl, rfl, rfl, rfl,
          rfl⟩
      | true =>
        rw [hupd] at h
        simp only [if_true] at h
        have hfold := foldlM_option_rel
          (fun (a b : DefCollector) => nonScopeEq b a)
          (fun a b c h1 h2 =>
            ⟨h2.1.trans h1.1, h2.2.1.trans h1.2.1, h2.2.2.1.trans h1.2.2.1,
             h2.2.2.2.1.trans h1.2.2.2.1,
             h2.2.2.2.2.1.trans h1.2.2.2.2.1,
             h2.2.2.2.2.2.1.trans h1.2.2.2.2.2.1,
             h2.2.2.2.2.2.2.1.trans h1.2.2.2.2.2.2.1,
             h2.2.2.2.2.2.2.2.1.trans h1.2.2.2.2.2.2.2.1,
             h2.2.2.2.2.2.2.2.2.1.trans h1.2.2.2.2.2.2.2.2.1,
             h2.2.2.2.2.2.2.2.2.2.1.trans h1.2.2.2.2.2.2.2.2.2.1,
             h2.2.2.2.2.2.2.2.2.2.2.1.trans h1.2.2.2.2.2.2.2.2.2.2.1,
             h2.2.2.2.2.2.2.2.2.2.2.2.1.trans h1.2.2.2.2.2.2.2.2.2.2.2.1,
             h2.2.2.2.2.2.2.2.2.2.2.2.2.trans h1.2.2.2.2.2.2.2.2.2.2.2.2⟩)
          (fun _ => ⟨rfl, rfl, rfl, rfl, rfl, rfl, rfl, rfl, rfl, rfl, rfl,
            rfl, rfl⟩) _ _ _ _
          (fun (a : ModuleId × ImportId) (s1 s2 : DefCollector) _ hf =>
            ih s1 a.1 (some a.2) rs (d + 1) s2 hf) h
        exact hfold

/-- C9: committing a resolved non-glob extern-crate import at the crate
root inserts the target's type-namespace binding into the extern prelude
under the bound name (alias, else last path segment); a commit into any
non-root module leaves the extern prelude unchanged. -/
theorem extern_crate_root_extern_prelude (db : Db) (st : DefCollector)
    (module_id : ModuleId) (def_ : PerNs ModuleDef) (iid : ImportId)
    (imp : ImportData) (st' : DefCollector)
    (h : recordResolvedImport db st module_id def_ iid imp = some st') :
    (imp.is_glob = false → imp.is_extern_crate = true →
      module_id = st.def_map.root →
      ∀ t, def_.types = some t →
      ∀ last, imp.path.segments.getLast? = some last →
      ∀ n, st'.def_map.extern_prelude n =
        (if n = imp.alias_.getD last then some t
         else st.def_map.extern_prelude n)) ∧
    (module_id ≠ st.def_map.root →
      ∀ n, st'.def_map.extern_prelude n = st.def_map.extern_prelude n) := by
  constructor
  · intro hglob hext hroot t ht last hlast n
    simp only [recordResolvedImport, hglob, Bool.false_eq_true, if_false]
      at h
    split at h
    · rename_i last2 hlast2
      rw [hlast] at hlast2
      injection hlast2 with hl
      subst hl
      rw [if_pos ⟨hext, hroot⟩] at h
      rw [show def_.takeTypes = some t from ht] at h
      have hf := updateRecAux_nonScopeEq _ _ _ _ _ _ _ h
      rw [hf.2.1]
    · rename_i hnone
      rw [hlast] at hnone
      exact Option.noConfusion hnone
  · intro hroot n
    simp only [recordResolvedImport] at h
    split at h
    · split at h
      · rename_i mref heq
        split at h
        · cases h; rfl
        · split at h
          · rw [(updateRecAux_nonScopeEq _ _ _ _ _ _ _ h).2.1]
          · cases hu : update st module_id (some iid)
                (st.def_map.modules.getD mref.module_id default).scope with
            | none => rw [hu] at h; exact Option.noConfusion h
            | some st2 =>
              rw [hu] at h
              cases h
              have hf := updateRecAux_nonScopeEq _ _ _ _ _ _ _ hu
              exact congrFun hf.2.1 n
      · rw [(updateRecAux_nonScopeEq _ _ _ _ _ _ _ h).2.1]
      · cases h; rfl
      · cases h; rfl
    · split at h
      · rw [if_neg (fun hc => hroot hc.2)] at h
        rw [(updateRecAux_nonScopeEq _ _ _ _ _ _ _ h).2.1]
      · cases h; rfl

/-- Witness for C9: committing the extern-crate import `dep` at the root
of the empty state puts its module binding into the extern prelude. -/
theorem extern_crate_root_extern_prelude_witness :
    egStExtRoot.def_map.extern_prelude "dep" = some egModDef :=
  ((extern_crate_root_extern_prelude egDb (egSt []) 0
    (PerNs.onlyTypes egModDef) 4 egExtImp egStExtRoot rfl).1
    rfl rfl rfl egModDef rfl "dep" rfl "dep").trans (by decide)

theorem foldlM_eq_foldl {α σ : Type _} (f : σ → α → Option σ)
    (g : σ → α → σ) (hfg : ∀ s a, f s a = some (g s a)) :
    ∀ (l : List α) (s : σ), l.foldlM f s = some (l.foldl g s) := by
  intro l
  induction l with
  | nil => intro s; rfl
  | cons a t ih =>
    intro s
    rw [show ((a :: t).foldlM f s = f s a >>= fun s' => t.foldlM f s')
      from rfl, hfg]
    exact ih (g s a)

theorem mergeResolutionStep_flush (i : ImportId) (e : Resolution) :
    (mergeResolutionStep (some i) ⟨PerNs.none', some i⟩ e).2 = false ∧
    (mergeResolutionStep (some i) ⟨PerNs.none', some i⟩ e).1.def_ =
      e.def_ ∧
    (mergeResolutionStep (some i) ⟨PerNs.none', some i⟩ e).1.importId =
      (if e.def_.isNone ∧ e.importId.isNone then some i
       else e.importId) := by
  obtain ⟨⟨et, ev⟩, ei⟩ := e
  cases et <;> cases ev <;> cases ei <;>
    simp [mergeResolutionStep, PerNs.isNone, PerNs.none']

theorem recordResolvedImport_flush (db : Db) (st : DefCollector)
    (m : ModuleId) (i : ImportId) (d : ImportData) :
    recordResolvedImport db st m PerNs.none' i d =
      some (flushResult st m i d) := by
  simp only [recordResolvedImport, flushResult]
  split
  · rfl
  · cases hlast : d.path.segments.getLast? with
    | none => rfl
    | some last =>
      simp only [hlast]
      have hflag : (updateScopeList (some i)
          [(d.alias_.getD last, ⟨PerNs.none', some i⟩)]
          (st.def_map.modules.getD m default).scope).2 = false := by
        simp [updateScopeList, (mergeResolutionStep_flush i _).1]
      have hbranch : (if d.is_extern_crate ∧ m = st.def_map.root then
          match (PerNs.none' : PerNs ModuleDef).takeTypes with
          | some dd =>
            { st with def_map := { st.def_map with
                extern_prelude := fun n =>
                  (if n = d.alias_.getD last then some dd
                   else st.def_map.extern_prelude n) } }
          | Option.none => st
        else st) = st := by
        split <;> rfl
      rw [hbranch]
      exact updateRecAux_no_write 101 st m (some i) _ 0 (by omega) hflag

theorem setModuleScope_lookup (st : DefCollector) (m0 : ModuleId)
    (sc : Scope) (m : ModuleId) (n : Name) :
    Scope.lookup ((setModuleScope st m0 sc).def_map.modules.getD m
      default).scope n =
      (if m = m0 ∧ m0 < st.def_map.modules.length then Scope.lookup sc n
       else Scope.lookup (st.def_map.modules.getD m default).scope n) := by
  by_cases hm : m = m0
  · subst hm
    by_cases hl : m < st.def_map.modules.length
    · simp only [setModuleScope]
      rw [List.getD_eq_getElem?_getD, List.getElem?_set_self hl]
      simp [hl]
    · simp only [setModuleScope]
      rw [List.set_eq_of_length_le (Nat.le_of_not_lt hl)]
      simp [hl]
  · simp only [setModuleScope]
    rw [modulesGetD_set_ne _ _ _ _ (fun hh => hm hh.symm)]
    simp [hm]

theorem flushResult_step_props (st : DefCollector) (m0 : ModuleId)
    (i : ImportId) (d : ImportData) :
    (∀ m n, defTypesAt (flushResult st m0 i d) m n = defTypesAt st m n ∧
      defValuesAt (flushResult st m0 i d) m n = defValuesAt st m n) ∧
    (∀ m n, (Scope.lookup
        ((st.def_map.modules.getD m default).scope) n).isSome = true →
      (Scope.lookup
        (((flushResult st m0 i d).def_map.modules.getD m default).scope)
        n).isSome = true) ∧
    (∀ m n, ((Scope.lookup ((st.def_map.modules.getD m default).scope)
        n).getD default).importId.isSome = true →
      ((Scope.lookup
        (((flushResult st m0 i d).def_map.modules.getD m default).scope)
        n).getD default).importId.isSome = true) ∧
    (flushResult st m0 i d).unresolved_imports = st.unresolved_imports ∧
    (d.is_glob = false → ∀ last, d.path.segments.getLast? = some last →
      m0 < st.def_map.modules.length →
      (Scope.lookup
        (((flushResult st m0 i d).def_map.modules.getD m0 default).scope)
        (d.alias_.getD last)).isSome = true ∧
      ((((Scope.lookup ((st.def_map.modules.getD m0 default).scope)
            (d.alias_.getD last)).getD default).def_.isNone = true ∧
        ((Scope.lookup ((st.def_map.modules.getD m0 default).scope)
            (d.alias_.getD last)).getD default).importId = Option.none) →
        ((Scope.lookup
          (((flushResult st m0 i d).def_map.modules.getD m0
            default).scope) (d.alias_.getD last)).getD
          default).importId = some i)) := by
  by_cases hg : d.is_glob = true
  · have hfr : flushResult st m0 i d = st := by simp [flushResult, hg]
    rw [hfr]
    refine ⟨fun m n => ⟨rfl, rfl⟩, fun m n h => h, fun m n h => h, rfl, ?_⟩
    intro hng
    rw [hng] at hg
    exact absurd hg (by simp)
  · have hg' : d.is_glob = false := by revert hg; cases d.is_glob <;> simp
    cases hlast : d.path.segments.getLast? with
    | none =>
      have hfr : flushResult st m0 i d = st := by
        simp [flushResult, hg', hlast]
      rw [hfr]
      refine ⟨fun m n => ⟨rfl, rfl⟩, fun m n h => h, fun m n h => h, rfl, ?_⟩
      intro _ last hlast2
      exact Option.noConfusion hlast2
    | some last =>
      have hfr : flushResult st m0 i d = setModuleScope st m0
          (Scope.insertAt (st.def_map.modules.getD m0 default).scope
            (d.alias_.getD last)
            (mergeResolutionStep (some i) ⟨PerNs.none', some i⟩
              ((Scope.lookup (st.def_map.modules.getD m0 default).scope
                (d.alias_.getD last)).getD default)).1) := by
        simp [flushResult, hg', hlast, updateScopeList]
      rw [hfr]
      have hlook := fun (m : ModuleId) (n : Name) => setModuleScope_lookup
        st m0 (Scope.insertAt (st.def_map.modules.getD m0 default).scope
          (d.alias_.getD last)
          (mergeResolutionStep (some i) ⟨PerNs.none', some i⟩
            ((Scope.lookup (st.def_map.modules.getD m0 default).scope
              (d.alias_.getD last)).getD default)).1) m n
      have hmerge := mergeResolutionStep_flush i
        ((Scope.lookup (st.def_map.modules.getD m0 default).scope
          (d.alias_.getD last)).getD default)
      refine ⟨?_, ?_, ?_, rfl, ?_⟩
      · intro m n
        constructor
        · show scopeDefTypes _ n = scopeDefTypes _ n
          simp only [scopeDefTypes]
          rw [hlook m n]
          by_cases hcond : m = m0 ∧ m0 < st.def_map.modules.length
          · rw [if_pos hcond, Scope.lookup_insertAt]
            by_cases hn : n = d.alias_.getD last
            · rw [if_pos hn, Option.getD_some, hmerge.2.1, hn, hcond.1]
            · rw [if_neg hn, hcond.1]
          · rw [if_neg hcond]
        · show scopeDefValues _ n = scopeDefValues _ n
          simp only [scopeDefValues]
          rw [hlook m n]
          by_cases hcond : m = m0 ∧ m0 < st.def_map.modules.length
          · rw [if_pos hcond, Scope.lookup_insertAt]
            by_cases hn : n = d.alias_.getD last
            · rw [if_pos hn, Option.getD_some, hmerge.2.1, hn, hcond.1]
            · rw [if_neg hn, hcond.1]
          · rw [if_neg hcond]
      · intro m n hsome
        rw [hlook m n]
        by_cases hcond : m = m0 ∧ m0 < st.def_map.modules.length
        · rw [if_pos hcond, Scope.lookup_insertAt]
          by_cases hn : n = d.alias_.getD last
          · rw [if_pos hn]; rfl
          · rw [if_neg hn, ← hcond.1]; exact hsome
        · rw [if_neg hcond]; exact hsome
      · intro m n hsome
        rw [hlook m n]
        by_cases hcond : m = m0 ∧ m0 < st.def_map.modules.length
        · rw [if_pos hcond, Scope.lookup_insertAt]
          by_cases hn : n = d.alias_.getD last
          · rw [if_pos hn, Option.getD_some, hmerge.2.2]
            split
            · rfl
            · rw [← hcond.1, ← hn]; exact hsome
          · rw [if_neg hn, ← hcond.1]; exact hsome
        · rw [if_neg hcond]; exact hsome
      · intro _ last2 hlast2 hlen
        injection hlast2 with hl2
        subst hl2
        constructor
        · rw [hlook m0 (d.alias_.getD last), if_pos ⟨rfl, hlen⟩,
            Scope.lookup_insertAt, if_pos rfl]
          rfl
        · intro hcond2
          have hc : (((st.def_map.modules.getD m0 default).scope.lookup
              (d.alias_.getD last)).getD default).def_.isNone = true ∧
              (((st.def_map.modules.getD m0 default).scope.lookup
                (d.alias_.getD last)).getD
                default).importId.isNone = true :=
            ⟨hcond2.1, by rw [hcond2.2]; rfl⟩
          rw [hlook m0 (d.alias_.getD last), if_pos ⟨rfl, hlen⟩,
            Scope.lookup_insertAt, if_pos rfl, Option.getD_some,
            hmerge.2.2, if_pos hc]

theorem flushResult_modules_length (st : DefCollector) (m0 : ModuleId)
    (i : ImportId) (d : ImportData) :
    (flushResult st m0 i d).def_map.modules.length =
      st.def_map.modules.length := by
  simp only [flushResult]
  split
  · rfl
  · split
    · rfl
    · simp [setModuleScope]

theorem flushFold_defs_eq :
    ∀ (l : List (ModuleId × ImportId × ImportData)) (s : DefCollector),
      ∀ m n,
        defTypesAt (l.foldl
          (fun acc e => flushResult acc e.1 e.2.1 e.2.2) s) m n =
          defTypesAt s m n ∧
        defValuesAt (l.foldl
          (fun acc e => flushResult acc e.1 e.2.1 e.2.2) s) m n =
          defValuesAt s m n := by
  intro l
  induction l with
  | nil => intro s m n; exact ⟨rfl, rfl⟩
  | cons e t ih =>
    intro s m n
    have hstep := (flushResult_step_props s e.1 e.2.1 e.2.2).1 m n
    exact ⟨(ih (flushResult s e.1 e.2.1 e.2.2) m n).1.trans hstep.1,
      (ih (flushResult s e.1 e.2.1 e.2.2) m n).2.trans hstep.2⟩

theorem flushFold_mono :
    ∀ (l : List (ModuleId × ImportId × ImportData)) (s : DefCollector)
      (m : ModuleId) (n : Name),
      ((Scope.lookup ((s.def_map.modules.getD m default).scope) n).isSome
          = true →
        (Scope.lookup (((l.foldl
          (fun acc e => flushResult acc e.1 e.2.1 e.2.2)
          s).def_map.modules.getD m default).scope) n).isSome = true) ∧
      (((Scope.lookup ((s.def_map.modules.getD m default).scope) n).getD
          default).importId.isSome = true →
        ((Scope.lookup (((l.foldl
          (fun acc e => flushResult acc e.1 e.2.1 e.2.2)
          s).def_map.modules.getD m default).scope) n).getD
          default).importId.isSome = true) := by
  intro l
  induction l with
  | nil => intro s m n; exact ⟨fun h => h, fun h => h⟩
  | cons e t ih =>
    intro s m n
    have hstep := flushResult_step_props s e.1 e.2.1 e.2.2
    exact ⟨fun h => (ih _ m n).1 (hstep.2.1 m n h),
      fun h => (ih _ m n).2 (hstep.2.2.1 m n h)⟩

theorem flushFold_unresolved :
    ∀ (l : List (ModuleId × ImportId × ImportData)) (s : DefCollector),
      (l.foldl (fun acc e => flushResult acc e.1 e.2.1 e.2.2)
        s).unresolved_imports = s.unresolved_imports := by
  intro l
  induction l with
  | nil => intro s; rfl
  | cons e t ih =>
    intro s
    exact (ih _).trans (flushResult_step_props s e.1 e.2.1 e.2.2).2.2.2.1

theorem flushFold_len :
    ∀ (l : List (ModuleId × ImportId × ImportData)) (s : DefCollector),
      (l.foldl (fun acc e => flushResult acc e.1 e.2.1 e.2.2)
        s).def_map.modules.length = s.def_map.modules.length := by
  intro l
  induction l with
  | nil => intro s; rfl
  | cons e t ih =>
    intro s
    exact (ih _).trans (flushResult_modules_length s e.1 e.2.1 e.2.2)

theorem flushFold_entry :
    ∀ (l : List (ModuleId × ImportId × ImportData)) (s : DefCollector),
      ∀ e ∈ l, e.2.2.is_glob = false →
      ∀ last, e.2.2.path.segments.getLast? = some last →
      e.1 < s.def_map.modules.length →
      (Scope.lookup (((l.foldl
        (fun acc q => flushResult acc q.1 q.2.1 q.2.2)
        s).def_map.modules.getD e.1 default).scope)
        (e.2.2.alias_.getD last)).isSome = true ∧
      ((((Scope.lookup ((s.def_map.modules.getD e.1 default).scope)
          (e.2.2.alias_.getD last)).getD default).def_.isNone = true ∧
        ((Scope.lookup ((s.def_map.modules.getD e.1 default).scope)
          (e.2.2.alias_.getD last)).getD default).importId =
          Option.none) →
        ((Scope.lookup (((l.foldl
          (fun acc q => flushResult acc q.1 q.2.1 q.2.2)
          s).def_map.modules.getD e.1 default).scope)
          (e.2.2.alias_.getD last)).getD
          default).importId.isSome = true) := by
  intro l
  induction l with
  | nil => intro s e he; exact absurd he (List.not_mem_nil e)
  | cons e0 t ih =>
    intro s e he hg last hlast hlen
    rcases List.mem_cons.mp he with he0 | het
    · subst he0
      have hstep := (flushResult_step_props s e.1 e.2.1 e.2.2).2.2.2.2
        hg last hlast hlen
      constructor
      · exact (flushFold_mono t _ e.1 (e.2.2.alias_.getD last)).1 hstep.1
      · intro hcond
        have h2 := hstep.2 hcond
        exact (flushFold_mono t _ e.1 (e.2.2.alias_.getD last)).2
          (by rw [h2]; rfl)
    · have hlen1 : e.1 < (flushResult s e0.1 e0.2.1
          e0.2.2).def_map.modules.length := by
        rw [flushResult_modules_length]; exact hlen
      have hih := ih (flushResult s e0.1 e0.2.1 e0.2.2) e het hg last
        hlast hlen1
      constructor
      · exact hih.1
      · intro hcond
        by_cases himp : ((Scope.lookup (((flushResult s e0.1 e0.2.1
            e0.2.2).def_map.modules.getD e.1 default).scope)
            (e.2.2.alias_.getD last)).getD
            default).importId.isSome = true
        · exact (flushFold_mono t _ e.1 (e.2.2.alias_.getD last)).2 himp
        · have hdefs := (flushResult_step_props s e0.1 e0.2.1 e0.2.2).1
            e.1 (e.2.2.alias_.getD last)
          refine hih.2 ⟨?_, ?_⟩
          · have h1 : defTypesAt (flushResult s e0.1 e0.2.1 e0.2.2) e.1
                (e.2.2.alias_.getD last) = Option.none := by
              rw [hdefs.1]
              have := hcond.1
              simp only [PerNs.isNone, Bool.and_eq_true,
                Option.isNone_iff_eq_none] at this
              exact this.1
            have h2 : defValuesAt (flushResult s e0.1 e0.2.1 e0.2.2) e.1
                (e.2.2.alias_.getD last) = Option.none := by
              rw [hdefs.2]
              have := hcond.1
              simp only [PerNs.isNone, Bool.and_eq_true,
                Option.isNone_iff_eq_none] at this
              exact this.2
            simp only [defTypesAt, scopeDefTypes] at h1
            simp only [defValuesAt, scopeDefValues] at h2
            simp only [PerNs.isNone, h1, h2]
            rfl
          · exact Option.not_isSome_iff_eq_none.mp (by
              intro hc
              exact himp (by rw [hc]))

/-- Counterexample for C5 as stated: a glob import still pending after
the loop is not committed — its bound name is absent from the owning
module's scope after the flush, so it is not `visible` there and its
own import id is not retained. -/
theorem unresolved_glob_import_dropped :
    (flushUnresolved egDb egStGlobPending).map
      (fun stf => Scope.lookup
        ((stf.def_map.modules.getD 0 default).scope) "m") =
      some Option.none := by
  decide

/-- C5 amended: after the loop, the pending queue is flushed by
committing an empty `PerNs` for every entry.  This leaves every namespace
binding in every scope unchanged; every still-pending NON-glob import
with a nonempty path and an in-range owning module stays visible — the
bound name (alias, else last segment) is present in the owning module's
scope, and if its entry previously had neither binding nor import id,
an import id is now recorded.  Pending glob imports (and empty-path
imports) contribute nothing at all. -/
theorem flush_unresolved_imports :
    ∀ (db : Db) (st st' : DefCollector),
      flushUnresolved db st = some st' →
      st' = st.unresolved_imports.foldl
        (fun acc e => flushResult acc e.1 e.2.1 e.2.2)
        { st with unresolved_imports := [] } ∧
      st'.unresolved_imports = [] ∧
      (∀ m n, defTypesAt st' m n = defTypesAt st m n ∧
        defValuesAt st' m n = defValuesAt st m n) ∧
      (∀ e ∈ st.unresolved_imports, e.2.2.is_glob = false →
        ∀ last, e.2.2.path.segments.getLast? = some last →
        e.1 < st.def_map.modules.length →
        (Scope.lookup ((st'.def_map.modules.getD e.1 default).scope)
          (e.2.2.alias_.getD last)).isSome = true ∧
        ((((Scope.lookup ((st.def_map.modules.getD e.1 default).scope)
              (e.2.2.alias_.getD last)).getD default).def_.isNone = true ∧
          ((Scope.lookup ((st.def_map.modules.getD e.1 default).scope)
              (e.2.2.alias_.getD last)).getD default).importId =
            Option.none) →
          ((Scope.lookup ((st'.def_map.modules.getD e.1 default).scope)
            (e.2.2.alias_.getD last)).getD
            default).importId.isSome = true)) := by
  intro db st st' h
  have hchar : flushUnresolved db st = some (st.unresolved_imports.foldl
      (fun acc e => flushResult acc e.1 e.2.1 e.2.2)
      { st with unresolved_imports := [] }) := by
    simp only [flushUnresolved]
    exact foldlM_eq_foldl _ _
      (fun (s : DefCollector) (e : ModuleId × ImportId × ImportData) =>
        recordResolvedImport_flush db s e.1 e.2.1 e.2.2) _ _
  rw [h] at hchar
  injection hchar with hchar
  refine ⟨hchar, ?_, ?_, ?_⟩
  · rw [hchar]
    exact flushFold_unresolved _ _
  · intro m n
    rw [hchar]
    exact flushFold_defs_eq _ _ m n
  · intro e he hg last hlast hlen
    rw [hchar]
    exact flushFold_entry st.unresolved_imports _ e he hg last hlast hlen

/-- Witness for the amended C5: a pending non-glob import of `x` as `y`
survives the flush as a visible, binding-free entry carrying an import
id. -/
theorem flush_unresolved_imports_witness :
    (Scope.lookup (((egFlushedNonGlob).def_map.modules.getD 0
      default).scope) "y").isSome = true ∧
    ((Scope.lookup (((egFlushedNonGlob).def_map.modules.getD 0
      default).scope) "y").getD default).importId.isSome = true :=
  have h := flush_unresolved_imports egDb egStNonGlobPending
    egFlushedNonGlob rfl
  have h2 := h.2.2.2 ((0, 8, egNonGlobImp) :
      ModuleId × ImportId × ImportData) (by decide) rfl
    "x" rfl (by decide)
  ⟨h2.1, h2.2 (by decide)⟩

theorem collectLoopCountAux_fst (db : Db) (fuel : Nat) :
    ∀ (rem : Nat) (st : DefCollector),
      (collectLoopCountAux db fuel rem st).map Prod.fst =
        collectLoopAux db fuel rem st := by
  intro rem
  induction rem using Nat.strong_induction_on with
  | _ rem ih =>
    intro st
    match rem with
    | 0 =>
      simp only [collectLoopCountAux, collectLoopAux]
      cases collectRound db fuel st <;> rfl
    | 1 =>
      simp only [collectLoopCountAux, collectLoopAux]
      cases collectRound db fuel st <;> rfl
    | Nat.succ (Nat.succ r) =>
      simp only [collectLoopCountAux, collectLoopAux]
      cases hr : collectRound db fuel st with
      | none => rfl
      | some t =>
        obtain ⟨st2, fp1, fp2⟩ := t
        cases fp1 <;> cases fp2 <;> try rfl
        all_goals
          show Option.map Prod.fst
            (match collectLoopCountAux db fuel (Nat.succ r) st2 with
              | Option.none => Option.none
              | some (st3, k) => some (st3, k + 1)) =
            collectLoopAux db fuel (Nat.succ r) st2
          rw [← ih (Nat.succ r) (by omega) st2]
          cases collectLoopCountAux db fuel (Nat.succ r) st2 with
          | none => rfl
          | some p => obtain ⟨a, b⟩ := p; rfl

/-- Counterexample for C4 as stated: on the trivial input the very first
round resolves zero imports and zero macros and the loop terminates
after exactly this ONE round — it does not wait for two consecutive
no-progress rounds. -/
theorem loop_single_noprogress_round_counterexample :
    (collectLoopCountAux egDb 1 1000 (egSt [])).map Prod.snd = some 1 := by
  decide

/-- C4 amended: the fixed-point loop terminates on the FIRST round in
which zero imports and zero macros are resolved (both flags are `Yes`),
or after the 1000-round cap; the cap branch returns the current state
(`some`, no panic), and no run executes more than 1000 rounds. -/
theorem collect_loop_stops_at_first_noprogress_or_cap :
    (∀ (db : Db) (fuel : Nat) (st st2 : DefCollector),
      collectRound db fuel st =
        some (st2, ReachedFixedPoint.Yes, ReachedFixedPoint.Yes) →
      ∀ rem, collectLoopAux db fuel rem st = some st2) ∧
    (∀ (db : Db) (fuel : Nat) (st st2 : DefCollector)
       (fp1 fp2 : ReachedFixedPoint),
      collectRound db fuel st = some (st2, fp1, fp2) →
      collectLoopAux db fuel 1 st = some st2) ∧
    (∀ (db : Db) (fuel : Nat) (rem : Nat) (st s : DefCollector) (k : Nat),
      collectLoopCountAux db fuel rem st = some (s, k) →
      k ≤ max rem 1) := by
  refine ⟨?_, ?_, ?_⟩
  · intro db fuel st st2 h rem
    match rem with
    | 0 => simp only [collectLoopAux]; rw [h]; rfl
    | 1 => simp only [collectLoopAux]; rw [h]; rfl
    | Nat.succ (Nat.succ r) => simp only [collectLoopAux]; rw [h]
  · intro db fuel st st2 fp1 fp2 h
    simp only [collectLoopAux]
    rw [h]
    rfl
  · intro db fuel rem
    induction rem using Nat.strong_induction_on with
    | _ rem ih =>
      intro st s k h
      match rem with
      | 0 =>
        simp only [collectLoopCountAux] at h
        cases hr : collectRound db fuel st with
        | none => rw [hr] at h; exact Option.noConfusion h
        | some t =>
          rw [hr] at h
          injection h with h2
          cases h2
          exact Nat.le_refl _
      | 1 =>
        simp only [collectLoopCountAux] at h
        cases hr : collectRound db fuel st with
        | none => rw [hr] at h; exact Option.noConfusion h
        | some t =>
          rw [hr] at h
          injection h with h2
          cases h2
          exact Nat.le_refl _
      | Nat.succ (Nat.succ r) =>
        simp only [collectLoopCountAux] at h
        split at h
        · exact Option.noConfusion h
        · rename_i st2 fp1 fp2 hr
          split at h
          · injection h with h2
            cases h2
            simp
          · cases hrec : collectLoopCountAux db fuel (Nat.succ r) st2 with
            | none =>
              rw [hrec] at h
              exact Option.noConfusion h
            | some p =>
              obtain ⟨st3, k2⟩ := p
              rw [hrec] at h
              have h' : some (st3, k2 + 1) = some (s, k) := h
              injection h' with h2
              injection h2 with h3 h4
              have hIH := ih (Nat.succ r) (by omega) st2 st3 k2 hrec
              have hm1 : max (Nat.succ r) 1 = Nat.succ r :=
                Nat.max_eq_left (by omega)
              have hm2 : max (Nat.succ (Nat.succ r)) 1 =
                  Nat.succ (Nat.succ r) := Nat.max_eq_left (by omega)
              rw [hm1] at hIH
              rw [hm2]
              omega

/-- Witness for the amended C4: on the trivial input the loop stops after
its first (no-progress) round for any remaining-round budget, and the
count bound holds on the concrete run. -/
theorem collect_loop_stops_witness :
    collectLoopAux egDb 1 777 (egSt []) = some egLoopFinal ∧
    (1 : Nat) ≤ max 1000 1 :=
  ⟨collect_loop_stops_at_first_noprogress_or_cap.1 egDb 1 (egSt [])
      egLoopFinal rfl 777,
   collect_loop_stops_at_first_noprogress_or_cap.2.2 egDb 1 1000
      (egSt []) egLoopFinal 1 rfl⟩

theorem recordResolvedImport_queues_eq (db : Db) (st : DefCollector)
    (m : ModuleId) (def_ : PerNs ModuleDef) (iid : ImportId)
    (imp : ImportData) (st' : DefCollector)
    (h : recordResolvedImport db st m def_ iid imp = some st') :
    st'.unresolved_imports = st.unresolved_imports ∧
    st'.unexpanded_macros = st.unexpanded_macros := by
  simp only [recordResolvedImport] at h
  split at h
  · split at h
    · rename_i mref heq
      split at h
      · cases h; exact ⟨rfl, rfl⟩
      · split at h
        · have hf := updateRecAux_nonScopeEq _ _ _ _ _ _ _ h
          exact ⟨hf.2.2.2.2.2.2.2.2.2.1, hf.2.2.2.2.2.2.2.2.2.2.1⟩
        · cases hu : update st m (some iid)
              (st.def_map.modules.getD mref.module_id default).scope with
          | none => rw [hu] at h; exact Option.noConfusion h
          | some st2 =>
            rw [hu] at h
            cases h
            have hf := updateRecAux_nonScopeEq _ _ _ _ _ _ _ hu
            exact ⟨hf.2.2.2.2.2.2.2.2.2.1, hf.2.2.2.2.2.2.2.2.2.2.1⟩
    · have hf := updateRecAux_nonScopeEq _ _ _ _ _ _ _ h
      exact ⟨hf.2.2.2.2.2.2.2.2.2.1, hf.2.2.2.2.2.2.2.2.2.2.1⟩
    · cases h; exact ⟨rfl, rfl⟩
    · cases h; exact ⟨rfl, rfl⟩
  · split at h
    · have hf := updateRecAux_nonScopeEq _ _ _ _ _ _ _ h
      refine ⟨hf.2.2.2.2.2.2.2.2.2.1.trans ?_,
        hf.2.2.2.2.2.2.2.2.2.2.1.trans ?_⟩ <;>
        · split
          · split <;> rfl
          · rfl
    · cases h; exact ⟨rfl, rfl⟩

theorem resolveImports_unexpanded_eq (db : Db) (st st' : DefCollector)
    (fp : ReachedFixedPoint) (h : resolveImports db st = some (st', fp)) :
    st'.unexpanded_macros = st.unexpanded_macros := by
  simp only [resolveImports] at h
  split at h
  · exact Option.noConfusion h
  · split at h
    · exact Option.noConfusion h
    · rename_i st2 hfold
      cases h
      have h2 := foldlM_option_rel
        (fun (a b : DefCollector) =>
          b.unexpanded_macros = a.unexpanded_macros)
        (fun a b c h1 h2 => h2.trans h1) (fun _ => rfl) _ _ _ _
        (fun a s1 s2 _ hf =>
          (recordResolvedImport_queues_eq db s1 a.1.1 a.2.1 a.1.2.1
            a.1.2.2 s2 hf).2) hfold
      exact h2

theorem flushResult_unexpanded_eq (st : DefCollector) (m0 : ModuleId)
    (i : ImportId) (d : ImportData) :
    (flushResult st m0 i d).unexpanded_macros = st.unexpanded_macros := by
  simp only [flushResult]
  split
  · rfl
  · split
    · rfl
    · rfl

theorem flushFold_unexpanded :
    ∀ (l : List (ModuleId × ImportId × ImportData)) (s : DefCollector),
      (l.foldl (fun acc e => flushResult acc e.1 e.2.1 e.2.2)
        s).unexpanded_macros = s.unexpanded_macros := by
  intro l
  induction l with
  | nil => intro s; rfl
  | cons e t ih =>
    intro s
    exact (ih _).trans (flushResult_unexpanded_eq s e.1 e.2.1 e.2.2)

theorem resolveMacroScanStep_kept_mono (db : Db) (dm : CrateDefMap)
    (acc : List (ModuleId × AstIdF × Path)
      × List (ModuleId × MacroCallId × MacroDefId) × ReachedFixedPoint)
    (entry : ModuleId × AstIdF × Path) (q : ModuleId × AstIdF × Path)
    (hq : q ∈ acc.1) : q ∈ (resolveMacroScanStep db dm acc entry).1 := by
  simp only [resolveMacroScanStep]
  split
  · exact List.mem_append_left _ hq
  · split
    · split
      · exact hq
      · exact hq
    · exact List.mem_append_left _ hq

theorem scanFold_kept_mono (db : Db) (dm : CrateDefMap) :
    ∀ (l : List (ModuleId × AstIdF × Path))
      (acc : List (ModuleId × AstIdF × Path)
        × List (ModuleId × MacroCallId × MacroDefId) × ReachedFixedPoint)
      (q : ModuleId × AstIdF × Path), q ∈ acc.1 →
      q ∈ (l.foldl (resolveMacroScanStep db dm) acc).1 := by
  intro l
  induction l with
  | nil => intro acc q hq; exact hq
  | cons e t ih =>
    intro acc q hq
    exact ih _ q (resolveMacroScanStep_kept_mono db dm acc e q hq)

theorem scanFold_retains (db : Db) (dm : CrateDefMap) :
    ∀ (l : List (ModuleId × AstIdF × Path))
      (acc : List (ModuleId × AstIdF × Path)
        × List (ModuleId × MacroCallId × MacroDefId) × ReachedFixedPoint)
      (e : ModuleId × AstIdF × Path), e ∈ l →
      e.2.2.segments.length ≠ 2 →
      e ∈ (l.foldl (resolveMacroScanStep db dm) acc).1 := by
  intro l
  induction l with
  | nil => intro acc e he; exact absurd he (List.not_mem_nil e)
  | cons e0 t ih =>
    intro acc e he hlen
    rcases List.mem_cons.mp he with he0 | het
    · subst he0
      refine scanFold_kept_mono db dm t _ e ?_
      simp only [resolveMacroScanStep, if_pos hlen]
      exact List.mem_append_right _ (by simp)
    · exact ih _ e het hlen

theorem queueMono_refl (st : DefCollector) : queueMono st st :=
  fun _ h => h

theorem queueMono_trans (a b c : DefCollector) (h1 : queueMono a b)
    (h2 : queueMono b c) : queueMono a c :=
  fun e he => h2 e (h1 e he)

theorem collectFns_queueMono : ∀ (fuel : Nat),
    (∀ (db : Db) (m : ModuleId) (fid : HirFileId) (items : List RawItem)
       (st st' : DefCollector),
       collectItems db fuel m fid items st = some st' → queueMono st st') ∧
    (∀ (db : Db) (m : ModuleId) (fid : HirFileId) (md : RawModuleData)
       (st st' : DefCollector),
       collectModule db fuel m fid md st = some st' → queueMono st st') ∧
    (∀ (db : Db) (m : ModuleId) (fid : HirFileId) (mac : MacroData)
       (st st' : DefCollector),
       collectMacroData db fuel m fid mac st = some st' →
       queueMono st st') ∧
    (∀ (db : Db) (m : ModuleId) (c : MacroCallId) (id : MacroDefId)
       (st st' : DefCollector),
       collectMacroExpansion db fuel m c id st = some st' →
       queueMono st st') := by
  intro fuel
  induction fuel with
  | zero =>
    refine ⟨?_, ?_, ?_, ?_⟩ <;>
      · intro db m fid x st st' h
        simp [collectItems, collectModule, collectMacroData,
          collectMacroExpansion] at h
  | succ f ih =>
    obtain ⟨ihI, ihM, ihD, ihE⟩ := ih
    refine ⟨?_, ?_, ?_, ?_⟩
    · intro db m fid items st st' h
      cases items with
      | nil =>
        simp only [collectItems] at h
        cases h
        exact queueMono_refl _
      | cons item rest =>
        cases item with
        | ModuleItem md =>
          simp only [collectItems] at h
          cases hmid : collectModule db f m fid md st with
          | none => rw [hmid] at h; exact Option.noConfusion h
          | some stM =>
            rw [hmid] at h
            exact queueMono_trans _ _ _ (ihM _ _ _ _ _ _ hmid)
              (ihI _ _ _ _ _ _ h)
        | ImportItem iid idata =>
          simp only [collectItems] at h
          exact fun e he => (ihI _ _ _ _ _ _ h) e he
        | DefItem d =>
          simp only [collectItems] at h
          cases hmid : defineDef st m fid d with
          | none => rw [hmid] at h; exact Option.noConfusion h
          | some stM =>
            rw [hmid] at h
            refine queueMono_trans _ _ _ ?_ (ihI _ _ _ _ _ _ h)
            intro e he
            rw [(updateRecAux_nonScopeEq _ _ _ _ _ _ _
              hmid).2.2.2.2.2.2.2.2.2.2.1]
            exact he
        | MacroItem mac =>
          simp only [collectItems] at h
          cases hmid : collectMacroData db f m fid mac st with
          | none => rw [hmid] at h; exact Option.noConfusion h
          | some stM =>
            rw [hmid] at h
            exact queueMono_trans _ _ _ (ihD _ _ _ _ _ _ hmid)
              (ihI _ _ _ _ _ _ h)
    · intro db m fid md st st' h
      cases md with
      | Definition name ast items =>
        simp only [collectModule] at h
        cases hp : pushChildModule st m name (AstIdF.mk fid ast)
            Option.none with
        | none => rw [hp] at h; exact Option.noConfusion h
        | some pr =>
          rw [hp] at h
          refine queueMono_trans _ _ _ ?_ (ihI _ _ _ _ _ _ h)
          intro e he
          simp only [pushChildModule] at hp
          split at hp
          · exact Option.noConfusion hp
          · rename_i st2 heq
            cases hp
            show e ∈ st2.unexpanded_macros
            rw [(updateRecAux_nonScopeEq _ _ _ _ _ _ _
              heq).2.2.2.2.2.2.2.2.2.2.1]
            exact he
      | Declaration name ast =>
        simp only [collectModule] at h
        split at h
        · rename_i fres hres
          cases hp : pushChildModule st m name (AstIdF.mk fid ast)
              (some fres) with
          | none => rw [hp] at h; exact Option.noConfusion h
          | some pr =>
            rw [hp] at h
            refine queueMono_trans _ _ _ ?_ (ihI _ _ _ _ _ _ h)
            intro e he
            simp only [pushChildModule] at hp
            split at hp
            · exact Option.noConfusion hp
            · rename_i st2 heq
              cases hp
              show e ∈ st2.unexpanded_macros
              rw [(updateRecAux_nonScopeEq _ _ _ _ _ _ _
                heq).2.2.2.2.2.2.2.2.2.2.1]
              exact he
        · cases h
          exact fun e he => he
    · intro db m fid mac st st' h
      simp only [collectMacroData] at h
      split at h
      · split at h
        · cases h
          intro e he
          show e ∈ (defineMacroDef st _ _ _).unexpanded_macros
          simp only [defineMacroDef]
          exact he
        · cases h
          exact queueMono_refl _
      · split at h
        · exact ihE _ _ _ _ _ _ h
        · cases h
          exact fun e he => List.mem_append_left _ he
    · intro db m c id st st' h
      simp only [collectMacroExpansion] at h
      split at h
      · cases h
        exact queueMono_refl _
      · split at h
        · cases hci : collectItems db f m c.asFile
              (db.rawItems c.asFile)
              { st with macro_stack_monitor :=
                st.macro_stack_monitor.increase id } with
          | none => rw [hci] at h; exact Option.noConfusion h
          | some st2 =>
            rw [hci] at h
            cases h
            exact fun e he => (ihI _ _ _ _ _ _ hci) e he
        · cases h
          exact fun e he => he

/-- The first merge `if`, seen through the type-namespace projection:
the merged entry's type slot is the existing slot, or else the incoming
one (fill-only). -/
theorem mergeResolutionStep_types_or (imp : Option ImportId)
    (res e0 : Resolution) :
    (mergeResolutionStep imp res e0).1.def_.types
      = e0.def_.types.or res.def_.types := by
  obtain ⟨⟨et, ev⟩, ei⟩ := e0
  obtain ⟨⟨rt, rv⟩, ri⟩ := res
  cases et <;> cases rt <;> cases ev <;> cases rv <;>
    simp [mergeResolutionStep, Option.or, PerNs.isNone] <;>
    (try (split <;> rfl))

/-- The second merge `if`, seen through the value-namespace projection:
the merged entry's value slot is the existing slot, or else the incoming
one (fill-only). -/
theorem mergeResolutionStep_values_or (imp : Option ImportId)
    (res e0 : Resolution) :
    (mergeResolutionStep imp res e0).1.def_.values
      = e0.def_.values.or res.def_.values := by
  obtain ⟨⟨et, ev⟩, ei⟩ := e0
  obtain ⟨⟨rt, rv⟩, ri⟩ := res
  cases et <;> cases rt <;> cases ev <;> cases rv <;>
    simp [mergeResolutionStep, Option.or, PerNs.isNone] <;>
    (try (split <;> rfl))

/-- C1, counterexample: the final map is NOT independent of the initial
order of the pending-imports queue.  Two imports of the same bound name
`n`, resolving terminally (and state-independently) to two different
structs, are committed first-writer-wins in queue order: the two queue
orders of the same import set — states agreeing everywhere else — give
final maps binding `n` to different definitions in the root module. -/
theorem collect_order_dependent_counterexample :
    (collectRest egDbC1 1 egStQ1).map (fun s => defTypesAt s 0 "n")
      = some (some egDef1) ∧
    (collectRest egDbC1 1 egStQ2).map (fun s => defTypesAt s 0 "n")
      = some (some egDef2) ∧
    egStQ1.unresolved_imports.Perm egStQ2.unresolved_imports ∧
    { egStQ1 with unresolved_imports := egStQ2.unresolved_imports }
      = egStQ2 ∧
    egDef1 ≠ egDef2 := by
  refine ⟨by decide, by decide, ?_, rfl, by decide⟩
  exact List.Perm.swap _ _ _

theorem eta_unexpanded_nil (st : DefCollector)
    (h : st.unexpanded_macros = []) :
    ({ st with unexpanded_macros := [] } : DefCollector) = st := by
  cases st
  simp_all

theorem eta_unresolved_nil (st : DefCollector)
    (h : st.unresolved_imports = []) :
    ({ st with unresolved_imports := [] } : DefCollector) = st := by
  cases st
  simp_all

theorem mapM_loop_eq {α β : Type _} (f : α → Option β) (g : α → β) :
    ∀ (l : List α) (acc : List β), (∀ a ∈ l, f a = some (g a)) →
      List.mapM.loop f l acc = some (acc.reverse ++ l.map g) := by
  intro l
  induction l with
  | nil => intro acc _; simp [List.mapM.loop]
  | cons a t ih =>
    intro acc h
    rw [show List.mapM.loop f (a :: t) acc
        = (f a).bind (fun b => List.mapM.loop f t (b :: acc)) from rfl,
      h a (by simp)]
    rw [show (some (g a)).bind (fun b => List.mapM.loop f t (b :: acc))
        = List.mapM.loop f t (g a :: acc) from rfl]
    rw [ih (g a :: acc) (fun b hb => h b (by simp [hb]))]
    simp

theorem mapM_eq_map {α β : Type _} (f : α → Option β) (g : α → β)
    (l : List α) (h : ∀ a ∈ l, f a = some (g a)) :
    l.mapM f = some (l.map g) := by
  rw [show l.mapM f = List.mapM.loop f l [] from rfl,
    mapM_loop_eq f g l [] h]
  rfl

/-- `foldlM` over `Option` collapses to a pure `foldl` when each step
succeeds, under an invariant carried along the fold. -/
theorem foldlM_eq_foldl_inv {α σ : Type _} (P : σ → Prop)
    (f : σ → α → Option σ) (g : σ → α → σ) :
    ∀ (l : List α),
      (∀ s a, P s → a ∈ l → f s a = some (g s a) ∧ P (g s a)) →
      ∀ s, P s → l.foldlM f s = some (l.foldl g s) ∧ P (l.foldl g s) := by
  intro l
  induction l with
  | nil => intro _ s hs; exact ⟨rfl, hs⟩
  | cons a t ih =>
    intro hstep s hs
    have h1 := hstep s a hs (by simp)
    have h2 := ih (fun s' b hs' hb => hstep s' b hs' (by simp [hb]))
      (g s a) h1.2
    refine ⟨?_, h2.2⟩
    rw [show ((a :: t).foldlM f s = f s a >>= fun s' => t.foldlM f s')
      from rfl, h1.1]
    exact h2.1

/-- `update_recursive` on a module with no glob subscribers just replaces
that module's scope, whether or not anything changed. -/
theorem updateRecAux_no_subscribers (fuel : Nat) (st : DefCollector)
    (module_id : ModuleId) (imp : Option ImportId)
    (rs : List (Name × Resolution)) (d : Nat) (hd : ¬ d > 100)
    (hglob : st.glob_imports module_id = []) :
    updateRecAux (fuel + 1) st module_id imp rs d =
      some (setModuleScope st module_id
        (updateScopeList imp rs
          (st.def_map.modules.getD module_id default).scope).1) := by
  simp only [updateRecAux]
  simp only [if_neg hd]
  split
  · show (st.glob_imports module_id).foldlM
        (fun acc p => updateRecAux fuel acc p.1 (some p.2) rs (d + 1))
        (setModuleScope st module_id
          (updateScopeList imp rs
            (st.def_map.modules.getD module_id default).scope).1)
      = some (setModuleScope st module_id
          (updateScopeList imp rs
            (st.def_map.modules.getD module_id default).scope).1)
    rw [hglob]
    rfl
  · rfl

theorem resolveOneImport_terminal (db : Db) (dm : CrateDefMap)
    (e : ModuleId × ImportId × ImportData)
    (hne : e.2.2.is_extern_crate = false) :
    resolveOneImport db dm e.1 e.2.2 =
      some ((db.resolvePathFp dm e.1 e.2.2.path).resolved_def,
        (db.resolvePathFp dm e.1 e.2.2.path).reached_fixedpoint) := by
  simp [resolveOneImport, hne]

/-- On a terminal non-glob import in a state with no glob subscribers,
`record_resolved_import` is exactly one `commitOne` step. -/
theorem recordResolvedImport_commitOne (db : Db) (dm0 : CrateDefMap)
    (acc : DefCollector) (e : ModuleId × ImportId × ImportData)
    (hng : e.2.2.is_glob = false) (hne : e.2.2.is_extern_crate = false)
    (hp : e.2.2.path.segments ≠ [])
    (hglob : acc.glob_imports e.1 = []) :
    recordResolvedImport db acc e.1 (resDefOf db dm0 e) e.2.1 e.2.2 =
      some (commitOne db dm0 acc e) := by
  obtain ⟨m, i, d⟩ := e
  have hng2 : d.is_glob = false := hng
  have hne2 : d.is_extern_crate = false := hne
  have hp2 : d.path.segments ≠ [] := hp
  have hg2 : acc.glob_imports m = [] := hglob
  simp only [recordResolvedImport, hng2, Bool.false_eq_true, if_false]
  obtain ⟨last, hlast⟩ : ∃ last, d.path.segments.getLast? = some last := by
    cases hl : d.path.segments.getLast? with
    | none => exact absurd (List.getLast?_eq_none_iff.mp hl) hp2
    | some x => exact ⟨x, rfl⟩
  simp only [hlast]
  rw [if_neg (by simp [hne2])]
  simp only [commitOne, boundOf, resDefOf, hlast, Option.getD_some]
  exact updateRecAux_no_subscribers 101 acc m (some i) _ 0 (by omega)
    hg2

/-- A fold of `commitOne` steps only touches module scopes: the queues,
the glob-subscription table and the number of modules are unchanged. -/
theorem commitFold_proj (db : Db) (dm0 : CrateDefMap) :
    ∀ (l : List (ModuleId × ImportId × ImportData)) (s : DefCollector),
      (l.foldl (commitOne db dm0) s).unexpanded_macros =
        s.unexpanded_macros ∧
      (l.foldl (commitOne db dm0) s).unresolved_imports =
        s.unresolved_imports ∧
      (l.foldl (commitOne db dm0) s).glob_imports = s.glob_imports ∧
      (l.foldl (commitOne db dm0) s).def_map.modules.length =
        s.def_map.modules.length := by
  intro l
  induction l with
  | nil => intro s; exact ⟨rfl, rfl, rfl, rfl⟩
  | cons a t ih =>
    intro s
    have h := ih (commitOne db dm0 s a)
    refine ⟨h.1, h.2.1, h.2.2.1, h.2.2.2.trans ?_⟩
    simp [commitOne, setModuleScope]

/-- `resolve_imports` on a queue of terminal non-glob imports, in a state
with no glob subscribers: every import is decided against the pre-round
map and committed in queue order, and the progress flag is `Yes` exactly
when the queue was empty. -/
theorem resolveImports_terminal (db : Db) (st : DefCollector)
    (hglob : ∀ m, st.glob_imports m = [])
    (hq : ∀ e ∈ st.unresolved_imports, terminalNonGlob db st.def_map e) :
    resolveImports db st =
      some (st.unresolved_imports.foldl (commitOne db st.def_map)
          { st with unresolved_imports := [] },
        (if st.unresolved_imports.isEmpty then ReachedFixedPoint.Yes
         else ReachedFixedPoint.No)) := by
  have hmapM : st.unresolved_imports.mapM
      (fun e => (resolveOneImport db st.def_map e.1 e.2.2).map
        (fun r => (e, r))) =
      some (st.unresolved_imports.map
        (fun e => (e, (resDefOf db st.def_map e, ReachedFixedPoint.Yes)))) := by
    refine mapM_eq_map _ _ _ (fun e he => ?_)
    have h := hq e he
    rw [resolveOneImport_terminal db st.def_map e h.2.1]
    simp [resDefOf, h.2.2.2]
  simp only [resolveImports, hmapM]
  have hfilterNo : (st.unresolved_imports.map
      (fun e => (e, (resDefOf db st.def_map e,
        ReachedFixedPoint.Yes)))).filter
      (fun d => d.2.2 = ReachedFixedPoint.No) = [] := by
    rw [List.filter_eq_nil_iff]
    intro a ha
    obtain ⟨e, he, rfl⟩ := List.mem_map.mp ha
    simp
  have hfilterYes : (st.unresolved_imports.map
      (fun e => (e, (resDefOf db st.def_map e,
        ReachedFixedPoint.Yes)))).filter
      (fun d => d.2.2 = ReachedFixedPoint.Yes) =
      st.unresolved_imports.map
        (fun e => (e, (resDefOf db st.def_map e,
          ReachedFixedPoint.Yes))) := by
    rw [List.filter_eq_self]
    intro a ha
    obtain ⟨e, he, rfl⟩ := List.mem_map.mp ha
    simp
  rw [hfilterNo, hfilterYes]
  simp only [List.map_nil]
  have hfold := foldlM_eq_foldl_inv
    (fun s => ∀ m, s.glob_imports m = [])
    (fun acc d => recordResolvedImport db acc d.1.1 d.2.1 d.1.2.1 d.1.2.2)
    (fun acc d => commitOne db st.def_map acc d.1)
    (st.unresolved_imports.map
      (fun e => (e, (resDefOf db st.def_map e, ReachedFixedPoint.Yes))))
    (fun s a hs ha => by
      obtain ⟨e, he, rfl⟩ := List.mem_map.mp ha
      have h := hq e he
      exact ⟨recordResolvedImport_commitOne db st.def_map s e h.1 h.2.1
        h.2.2.1 (hs e.1), fun m => hs m⟩)
    { st with unresolved_imports := [] } (fun m => hglob m)
  rw [hfold.1, List.foldl_map]
  have hie : ((st.unresolved_imports.map
      (fun e => (e, (resDefOf db st.def_map e,
        ReachedFixedPoint.Yes)))).isEmpty) =
      st.unresolved_imports.isEmpty := by
    cases st.unresolved_imports <;> rfl
  rw [hie]

theorem resolveImports_empty (db : Db) (st : DefCollector)
    (h : st.unresolved_imports = []) :
    resolveImports db st = some (st, ReachedFixedPoint.Yes) := by
  simp only [resolveImports, h, List.mapM_nil, List.filter_nil,
    List.map_nil, List.foldlM_nil, List.isEmpty_nil, if_true]
  rw [eta_unresolved_nil st h]

theorem resolveMacros_empty (db : Db) (fuel : Nat) (st : DefCollector)
    (h : st.unexpanded_macros = []) :
    resolveMacros db fuel st = some (st, ReachedFixedPoint.Yes) := by
  simp only [resolveMacros, h, List.foldl_nil, List.foldlM_nil]
  rw [eta_unexpanded_nil st h]

theorem flushUnresolved_empty (db : Db) (st : DefCollector)
    (h : st.unresolved_imports = []) :
    flushUnresolved db st = some st := by
  simp only [flushUnresolved, h, List.foldlM_nil]
  rw [eta_unresolved_nil st h]
  rfl

theorem collectRound_terminal (db : Db) (fuel : Nat) (st : DefCollector)
    (hglob : ∀ m, st.glob_imports m = [])
    (hmac : st.unexpanded_macros = [])
    (hq : ∀ e ∈ st.unresolved_imports, terminalNonGlob db st.def_map e) :
    collectRound db fuel st =
      some (st.unresolved_imports.foldl (commitOne db st.def_map)
          { st with unresolved_imports := [] },
        (if st.unresolved_imports.isEmpty then ReachedFixedPoint.Yes
         else ReachedFixedPoint.No), ReachedFixedPoint.Yes) := by
  have hm := resolveMacros_empty db fuel
    (st.unresolved_imports.foldl (commitOne db st.def_map)
      { st with unresolved_imports := [] })
    ((commitFold_proj db st.def_map st.unresolved_imports
      { st with unresolved_imports := [] }).1.trans hmac)
  simp only [collectRound, resolveImports_terminal db st hglob hq, hm]

theorem collectRound_idle (db : Db) (fuel : Nat) (st : DefCollector)
    (hmac : st.unexpanded_macros = [])
    (hq : st.unresolved_imports = []) :
    collectRound db fuel st =
      some (st, ReachedFixedPoint.Yes, ReachedFixedPoint.Yes) := by
  simp only [collectRound, resolveImports_empty db st hq,
    resolveMacros_empty db fuel st hmac]

theorem collectLoopAux_idle (db : Db) (fuel : Nat) (r : Nat)
    (st : DefCollector) (hmac : st.unexpanded_macros = [])
    (hq : st.unresolved_imports = []) :
    collectLoopAux db fuel (Nat.succ r) st = some st := by
  cases r with
  | zero =>
    show collectLoopAux db fuel 1 st = some st
    simp only [collectLoopAux, collectRound_idle db fuel st hmac hq,
      Option.map_some']
  | succ r' =>
    simp only [collectLoopAux, collectRound_idle db fuel st hmac hq]

theorem collectLoop_terminal (db : Db) (fuel : Nat) (r : Nat)
    (st : DefCollector)
    (hglob : ∀ m, st.glob_imports m = [])
    (hmac : st.unexpanded_macros = [])
    (hq : ∀ e ∈ st.unresolved_imports, terminalNonGlob db st.def_map e) :
    collectLoopAux db fuel (Nat.succ (Nat.succ r)) st =
      some (st.unresolved_imports.foldl (commitOne db st.def_map)
        { st with unresolved_imports := [] }) := by
  have hround := collectRound_terminal db fuel st hglob hmac hq
  simp only [collectLoopAux, hround]
  cases hi : st.unresolved_imports with
  | nil => simp [hi]
  | cons a t =>
    have hstC1 := commitFold_proj db st.def_map (a :: t)
      { st with unresolved_imports := [] }
    simp only [hi, List.isEmpty_cons, Bool.false_eq_true, if_false]
    exact collectLoopAux_idle db fuel r _ (hstC1.1.trans hmac)
      (hstC1.2.1.trans rfl)

/-- The loop-then-flush part of `collect`, on a state with no glob
subscribers, no pending macros and a queue of terminal non-glob imports:
round one commits every import in queue order against the pre-loop map,
round two observes no progress and stops, and the flush has nothing to
do. -/
theorem collectRest_terminal (db : Db) (fuel : Nat) (st : DefCollector)
    (hglob : ∀ m, st.glob_imports m = [])
    (hmac : st.unexpanded_macros = [])
    (hq : ∀ e ∈ st.unresolved_imports, terminalNonGlob db st.def_map e) :
    collectRest db fuel st =
      some (st.unresolved_imports.foldl (commitOne db st.def_map)
        { st with unresolved_imports := [] }) := by
  have hloop : collectLoopAux db fuel 1000 st =
      some (st.unresolved_imports.foldl (commitOne db st.def_map)
        { st with unresolved_imports := [] }) := by
    rw [show (1000 : Nat) = Nat.succ (Nat.succ 998) from rfl]
    exact collectLoop_terminal db fuel 998 st hglob hmac hq
  simp only [collectRest, hloop]
  exact flushUnresolved_empty db _
    ((commitFold_proj db st.def_map st.unresolved_imports
      { st with unresolved_imports := [] }).2.1.trans rfl)

/-- One `commitOne` step, seen through a type-namespace slot: fill-only
merge of that import's contribution. -/
theorem commitOne_defTypes (db : Db) (dm0 : CrateDefMap)
    (acc : DefCollector) (e : ModuleId × ImportId × ImportData)
    (m : ModuleId) (n : Name) :
    defTypesAt (commitOne db dm0 acc e) m n =
      (defTypesAt acc m n).or
        (typeContrib db dm0 acc.def_map.modules.length m n e) := by
  simp only [commitOne, defTypesAt, scopeDefTypes, typeContrib]
  rw [setModuleScope_lookup]
  by_cases hm : m = e.1 ∧ e.1 < acc.def_map.modules.length
  · rw [if_pos hm]
    obtain ⟨hm1, hm2⟩ := hm
    rw [show (updateScopeList (some e.2.1)
        [(boundOf e, ⟨resDefOf db dm0 e, some e.2.1⟩)]
        (acc.def_map.modules.getD e.1 default).scope).1
      = Scope.insertAt (acc.def_map.modules.getD e.1 default).scope
          (boundOf e)
          (mergeResolutionStep (some e.2.1)
            ⟨resDefOf db dm0 e, some e.2.1⟩
            ((Scope.lookup (acc.def_map.modules.getD e.1 default).scope
              (boundOf e)).getD default)).1
      from rfl]
    rw [Scope.lookup_insertAt]
    by_cases hn : n = boundOf e
    · rw [hm1, hn, if_pos rfl, if_pos ⟨rfl, hm2, rfl⟩, Option.getD_some,
        mergeResolutionStep_types_or]
    · rw [if_neg hn, if_neg (fun hc => hn hc.2.2), hm1]
      exact Option.or_none.symm
  · rw [if_neg hm, if_neg (fun hc => hm ⟨hc.1, hc.2.1⟩)]
    exact Option.or_none.symm

/-- One `commitOne` step, seen through a value-namespace slot. -/
theorem commitOne_defValues (db : Db) (dm0 : CrateDefMap)
    (acc : DefCollector) (e : ModuleId × ImportId × ImportData)
    (m : ModuleId) (n : Name) :
    defValuesAt (commitOne db dm0 acc e) m n =
      (defValuesAt acc m n).or
        (valueContrib db dm0 acc.def_map.modules.length m n e) := by
  simp only [commitOne, defValuesAt, scopeDefValues, valueContrib]
  rw [setModuleScope_lookup]
  by_cases hm : m = e.1 ∧ e.1 < acc.def_map.modules.length
  · rw [if_pos hm]
    obtain ⟨hm1, hm2⟩ := hm
    rw [show (updateScopeList (some e.2.1)
        [(boundOf e, ⟨resDefOf db dm0 e, some e.2.1⟩)]
        (acc.def_map.modules.getD e.1 default).scope).1
      = Scope.insertAt (acc.def_map.modules.getD e.1 default).scope
          (boundOf e)
          (mergeResolutionStep (some e.2.1)
            ⟨resDefOf db dm0 e, some e.2.1⟩
            ((Scope.lookup (acc.def_map.modules.getD e.1 default).scope
              (boundOf e)).getD default)).1
      from rfl]
    rw [Scope.lookup_insertAt]
    by_cases hn : n = boundOf e
    · rw [hm1, hn, if_pos rfl, if_pos ⟨rfl, hm2, rfl⟩, Option.getD_some,
        mergeResolutionStep_values_or]
    · rw [if_neg hn, if_neg (fun hc => hn hc.2.2), hm1]
      exact Option.or_none.symm
  · rw [if_neg hm, if_neg (fun hc => hm ⟨hc.1, hc.2.1⟩)]
    exact Option.or_none.symm

theorem firstSome_cons {α : Type _} (c : Option α)
    (rest : List (Option α)) :
    firstSome (c :: rest) = c.or (firstSome rest) := by
  cases c <;> simp [firstSome, Option.or]

/-- A whole fold of `commitOne` steps, seen through a type-namespace
slot: the starting binding, or else the first contribution the queue
makes to that slot. -/
theorem commitFold_defTypes (db : Db) (dm0 : CrateDefMap) :
    ∀ (l : List (ModuleId × ImportId × ImportData)) (s : DefCollector)
      (m : ModuleId) (n : Name),
      defTypesAt (l.foldl (commitOne db dm0) s) m n =
        (defTypesAt s m n).or
          (firstSome (l.map
            (typeContrib db dm0 s.def_map.modules.length m n))) := by
  intro l
  induction l with
  | nil =>
    intro s m n
    exact Option.or_none.symm
  | cons a t ih =>
    intro s m n
    rw [show ((a :: t).foldl (commitOne db dm0) s
        = t.foldl (commitOne db dm0) (commitOne db dm0 s a)) from rfl]
    rw [ih (commitOne db dm0 s a) m n]
    rw [commitOne_defTypes]
    rw [show (commitOne db dm0 s a).def_map.modules.length
        = s.def_map.modules.length from by simp [commitOne, setModuleScope]]
    rw [Option.or_assoc]
    rw [show ((a :: t).map (typeContrib db dm0 s.def_map.modules.length m n))
        = typeContrib db dm0 s.def_map.modules.length m n a
          :: t.map (typeContrib db dm0 s.def_map.modules.length m n)
      from rfl]
    rw [firstSome_cons]

/-- A whole fold of `commitOne` steps, seen through a value-namespace
slot. -/
theorem commitFold_defValues (db : Db) (dm0 : CrateDefMap) :
    ∀ (l : List (ModuleId × ImportId × ImportData)) (s : DefCollector)
      (m : ModuleId) (n : Name),
      defValuesAt (l.foldl (commitOne db dm0) s) m n =
        (defValuesAt s m n).or
          (firstSome (l.map
            (valueContrib db dm0 s.def_map.modules.length m n))) := by
  intro l
  induction l with
  | nil =>
    intro s m n
    exact Option.or_none.symm
  | cons a t ih =>
    intro s m n
    rw [show ((a :: t).foldl (commitOne db dm0) s
        = t.foldl (commitOne db dm0) (commitOne db dm0 s a)) from rfl]
    rw [ih (commitOne db dm0 s a) m n]
    rw [commitOne_defValues]
    rw [show (commitOne db dm0 s a).def_map.modules.length
        = s.def_map.modules.length from by simp [commitOne, setModuleScope]]
    rw [Option.or_assoc]
    rw [show ((a :: t).map (valueContrib db dm0 s.def_map.modules.length m n))
        = valueContrib db dm0 s.def_map.modules.length m n a
          :: t.map (valueContrib db dm0 s.def_map.modules.length m n)
      from rfl]
    rw [firstSome_cons]

/-- If all values present in a list of options agree, its first `some` is
permutation-invariant. -/
theorem firstSome_perm {α : Type _} (l1 l2 : List (Option α))
    (hp : l1.Perm l2)
    (hall : ∀ a ∈ l1.filterMap id, ∀ b ∈ l1.filterMap id, a = b) :
    firstSome l1 = firstSome l2 := by
  have hpf := hp.filterMap id
  cases h1 : l1.filterMap id with
  | nil =>
    have h2 : l2.filterMap id = [] := by
      have hl := hpf.length_eq
      rw [h1] at hl
      cases hc : l2.filterMap id with
      | nil => rfl
      | cons b t2 => rw [hc] at hl; simp at hl
    simp [firstSome, h1, h2]
  | cons a t =>
    cases h2 : l2.filterMap id with
    | nil =>
      have hl := hpf.length_eq
      rw [h1, h2] at hl
      simp at hl
    | cons b t2 =>
      have hb : b ∈ l1.filterMap id := by
        refine hpf.mem_iff.mpr ?_
        rw [h2]
        simp
      have ha : a ∈ l1.filterMap id := by rw [h1]; simp
      have hab := hall a ha b hb
      simp [firstSome, h1, h2, hab]

/-- C1 (amended): order-independence of the final map holds only under
restrictions.  For a state whose pending-macro queue is empty, whose
glob-subscription table is empty, and whose pending imports are all
non-glob, non-extern-crate, nonempty-path imports that resolve terminally
against the starting map, two runs of the loop-and-flush part of
`collect` from queue orders that are permutations of one another yield
maps with the same type- and value-namespace bindings in every module —
PROVIDED the queue is conflict-free: any two imports binding the same
name in the same module agree on every namespace binding both provide.
Without conflict-freedom the first-writer-wins merge makes the result
order-dependent (see the counterexample). -/
theorem collect_queue_order_independent (db : Db) (fuel1 fuel2 : Nat)
    (st : DefCollector) (l2 : List (ModuleId × ImportId × ImportData))
    (hperm : st.unresolved_imports.Perm l2)
    (hglob : ∀ m, st.glob_imports m = [])
    (hmac : st.unexpanded_macros = [])
    (hq : ∀ e ∈ st.unresolved_imports, terminalNonGlob db st.def_map e)
    (hcompat : commitCompat db st.def_map st.unresolved_imports)
    (st1' st2' : DefCollector)
    (h1 : collectRest db fuel1 st = some st1')
    (h2 : collectRest db fuel2 { st with unresolved_imports := l2 }
      = some st2') :
    ∀ m n, defTypesAt st1' m n = defTypesAt st2' m n ∧
      defValuesAt st1' m n = defValuesAt st2' m n := by
  have hr1 := collectRest_terminal db fuel1 st hglob hmac hq
  have hq2 : ∀ e ∈ l2, terminalNonGlob db
      ({ st with unresolved_imports := l2 }).def_map e :=
    fun e he => hq e (hperm.mem_iff.mpr he)
  have hr2 := collectRest_terminal db fuel2
    { st with unresolved_imports := l2 } (fun m => hglob m) hmac hq2
  rw [h1] at hr1
  rw [h2] at hr2
  have heq1 : st1' = st.unresolved_imports.foldl (commitOne db st.def_map)
      { st with unresolved_imports := [] } := Option.some.inj hr1
  have heq2 : st2' = l2.foldl (commitOne db st.def_map)
      { st with unresolved_imports := [] } := Option.some.inj hr2
  subst heq1
  subst heq2
  intro m n
  constructor
  · rw [commitFold_defTypes, commitFold_defTypes]
    congr 1
    refine firstSome_perm _ _ (hperm.map _) ?_
    intro a ha b hb
    obtain ⟨x, hx, hxa⟩ := List.mem_filterMap.mp ha
    obtain ⟨e1, he1, he1c⟩ := List.mem_map.mp hx
    obtain ⟨y, hy, hyb⟩ := List.mem_filterMap.mp hb
    obtain ⟨e2, he2, he2c⟩ := List.mem_map.mp hy
    subst he1c
    subst he2c
    simp only [id] at hxa hyb
    simp only [typeContrib] at hxa hyb
    split at hxa
    · rename_i hc1
      split at hyb
      · rename_i hc2
        have hcc := hcompat e1 he1 e2 he2 (hc1.1.symm.trans hc2.1)
          (hc1.2.2.symm.trans hc2.2.2)
        exact hcc.1 a b hxa hyb
      · exact absurd hyb (by simp)
    · exact absurd hxa (by simp)
  · rw [commitFold_defValues, commitFold_defValues]
    congr 1
    refine firstSome_perm _ _ (hperm.map _) ?_
    intro a ha b hb
    obtain ⟨x, hx, hxa⟩ := List.mem_filterMap.mp ha
    obtain ⟨e1, he1, he1c⟩ := List.mem_map.mp hx
    obtain ⟨y, hy, hyb⟩ := List.mem_filterMap.mp hb
    obtain ⟨e2, he2, he2c⟩ := List.mem_map.mp hy
    subst he1c
    subst he2c
    simp only [id] at hxa hyb
    simp only [valueContrib] at hxa hyb
    split at hxa
    · rename_i hc1
      split at hyb
      · rename_i hc2
        have hcc := hcompat e1 he1 e2 he2 (hc1.1.symm.trans hc2.1)
          (hc1.2.2.symm.trans hc2.2.2)
        exact hcc.2 a b hxa hyb
      · exact absurd hyb (by simp)
    · exact absurd hxa (by simp)

/-- The order-independence theorem applied at a one-import queue: both
runs (with different macro fuel, same queue up to permutation) agree on
the root module's binding for `n`. -/
theorem collect_queue_order_independent_witness :
    defTypesAt ((collectRest egDbC1 1 egStW1).getD (egSt [])) 0 "n"
      = defTypesAt ((collectRest egDbC1 2 egStW1).getD (egSt [])) 0 "n" ∧
    defValuesAt ((collectRest egDbC1 1 egStW1).getD (egSt [])) 0 "n"
      = defValuesAt ((collectRest egDbC1 2 egStW1).getD (egSt [])) 0 "n" := by
  have h := collect_queue_order_independent egDbC1 1 2 egStW1
    [(0, 1, egImpA)] (List.Perm.refl _) (fun m => rfl) rfl
    (fun e he => by
      have he2 : e = (0, 1, egImpA) := by simpa [egStW1] using he
      subst he2
      exact ⟨rfl, rfl, by decide, by decide⟩)
    (fun e1 he1 e2 he2 hm hb => by
      have h1 : e1 = (0, 1, egImpA) := by simpa [egStW1] using he1
      have h2 : e2 = (0, 1, egImpA) := by simpa [egStW1] using he2
      subst h1
      subst h2
      exact ⟨fun t1 t2 ht1 ht2 => Option.some.inj (ht1.symm.trans ht2),
        fun v1 v2 hv1 hv2 => Option.some.inj (hv1.symm.trans hv2)⟩)
    ((collectRest egDbC1 1 egStW1).getD (egSt []))
    ((collectRest egDbC1 2 egStW1).getD (egSt []))
    rfl rfl 0 "n"
  exact h

/-- Every call the scan triggers stems from a two-segment entry: one
step either keeps the entry (no call added) or adds the call built from
a two-segment entry's owning module and ast id. -/
theorem resolveMacroScanStep_call_source (db : Db) (dm : CrateDefMap)
    (acc : List (ModuleId × AstIdF × Path)
      × List (ModuleId × MacroCallId × MacroDefId) × ReachedFixedPoint)
    (entry : ModuleId × AstIdF × Path)
    (c : ModuleId × MacroCallId × MacroDefId)
    (hc : c ∈ (resolveMacroScanStep db dm acc entry).2.1) :
    c ∈ acc.2.1 ∨ (entry.2.2.segments.length = 2 ∧ c.1 = entry.1 ∧
      c.2.1 = MacroCallId.mk c.2.2 entry.2.1) := by
  simp only [resolveMacroScanStep] at hc
  split at hc
  · exact Or.inl hc
  · rename_i hlen
    split at hc
    · split at hc
      · rcases List.mem_append.mp hc with ha | hb
        · exact Or.inl ha
        · right
          have hcb := List.mem_singleton.mp hb
          subst hcb
          exact ⟨not_ne_iff.mp hlen, rfl, rfl⟩
      · exact Or.inl hc
    · exact Or.inl hc

theorem scanFold_call_source (db : Db) (dm : CrateDefMap) :
    ∀ (l : List (ModuleId × AstIdF × Path))
      (acc : List (ModuleId × AstIdF × Path)
        × List (ModuleId × MacroCallId × MacroDefId) × ReachedFixedPoint)
      (c : ModuleId × MacroCallId × MacroDefId),
      c ∈ (l.foldl (resolveMacroScanStep db dm) acc).2.1 →
      c ∈ acc.2.1 ∨ ∃ e ∈ l, e.2.2.segments.length = 2 ∧ c.1 = e.1 ∧
        c.2.1 = MacroCallId.mk c.2.2 e.2.1 := by
  intro l
  induction l with
  | nil => intro acc c hc; exact Or.inl hc
  | cons e0 t ih =>
    intro acc c hc
    rcases ih _ c hc with hin | ⟨e, he, h⟩
    · rcases resolveMacroScanStep_call_source db dm acc e0 c hin with
        h0 | h0
      · exact Or.inl h0
      · exact Or.inr ⟨e0, by simp, h0⟩
    · exact Or.inr ⟨e, by simp [he], h⟩

/-- Scanning a queue of only non-two-segment entries keeps them all in
the round's local retained list, triggers nothing, and leaves the
progress flag untouched. -/
theorem scanFold_nonbinary (db : Db) (dm : CrateDefMap) :
    ∀ (l : List (ModuleId × AstIdF × Path))
      (acc : List (ModuleId × AstIdF × Path)
        × List (ModuleId × MacroCallId × MacroDefId) × ReachedFixedPoint),
      (∀ e ∈ l, e.2.2.segments.length ≠ 2) →
      l.foldl (resolveMacroScanStep db dm) acc =
        (acc.1 ++ l, acc.2.1, acc.2.2) := by
  intro l
  induction l with
  | nil =>
    intro acc _
    obtain ⟨a, b, f⟩ := acc
    simp
  | cons e0 t ih =>
    intro acc h
    rw [show ((e0 :: t).foldl (resolveMacroScanStep db dm) acc
        = t.foldl (resolveMacroScanStep db dm)
          (resolveMacroScanStep db dm acc e0)) from rfl]
    rw [show resolveMacroScanStep db dm acc e0
        = (acc.1 ++ [e0], acc.2.1, acc.2.2) from by
      simp only [resolveMacroScanStep, if_pos (h e0 (by simp))]]
    rw [ih _ (fun e he => h e (by simp [he]))]
    simp

/-- `resolve_macros` on a queue of only non-two-segment entries: they are
all retained by the scan into the round's local list, no expansion runs,
the round reports a fixed point — and the pending queue ends empty,
because the local list is dropped. -/
theorem resolveMacros_nonbinary (db : Db) (fuel : Nat)
    (st : DefCollector)
    (h : ∀ e ∈ st.unexpanded_macros, e.2.2.segments.length ≠ 2) :
    resolveMacros db fuel st =
      some ({ st with unexpanded_macros := [] },
        ReachedFixedPoint.Yes) := by
  simp only [resolveMacros,
    scanFold_nonbinary db st.def_map st.unexpanded_macros
      ([], [], ReachedFixedPoint.Yes) h, List.foldlM_nil]

theorem collectRound_drops_nonbinary (db : Db) (fuel : Nat)
    (st : DefCollector)
    (t : DefCollector × ReachedFixedPoint × ReachedFixedPoint)
    (h : collectRound db fuel st = some t)
    (hnb : ∀ e ∈ st.unexpanded_macros, e.2.2.segments.length ≠ 2) :
    t.1.unexpanded_macros = [] := by
  simp only [collectRound] at h
  split at h
  · exact Option.noConfusion h
  · rename_i st1 fp1 hri
    have hq : st1.unexpanded_macros = st.unexpanded_macros :=
      resolveImports_unexpanded_eq db st st1 fp1 hri
    simp only [resolveMacros_nonbinary db fuel st1
      (fun e he => hnb e (hq ▸ he))] at h
    cases h
    rfl

theorem collectLoopAux_drops_nonbinary (db : Db) (fuel : Nat) :
    ∀ (rem : Nat) (st st' : DefCollector),
      collectLoopAux db fuel rem st = some st' →
      (∀ e ∈ st.unexpanded_macros, e.2.2.segments.length ≠ 2) →
      st'.unexpanded_macros = [] := by
  intro rem
  induction rem using Nat.strong_induction_on with
  | _ rem ih =>
    intro st st' h hnb
    match rem with
    | 0 =>
      simp only [collectLoopAux] at h
      cases hr : collectRound db fuel st with
      | none => rw [hr] at h; exact Option.noConfusion h
      | some t =>
        rw [hr] at h
        cases h
        exact collectRound_drops_nonbinary db fuel st t hr hnb
    | 1 =>
      simp only [collectLoopAux] at h
      cases hr : collectRound db fuel st with
      | none => rw [hr] at h; exact Option.noConfusion h
      | some t =>
        rw [hr] at h
        cases h
        exact collectRound_drops_nonbinary db fuel st t hr hnb
    | Nat.succ (Nat.succ r) =>
      simp only [collectLoopAux] at h
      split at h
      · exact Option.noConfusion h
      · rename_i st2 fp1 fp2 hr
        have hdrop := collectRound_drops_nonbinary db fuel st
          (st2, fp1, fp2) hr hnb
        split at h
        · cases h; exact hdrop
        · exact ih _ (by omega) st2 st' h
            (fun e he => by
              rw [hdrop] at he
              exact absurd he (List.not_mem_nil e))

/-- C8, corrected: a queued macro invocation whose path is not exactly
two segments is never expanded and no diagnostic can concern it (the
only diagnostic kind the collector produces is an unresolved module
declaration) — but it does NOT remain pending.  The scan keeps it in a
round-local retained list and triggers calls only from two-segment
entries; `resolve_macros` however takes the queue with `mem::replace`
and never writes the retained list back, so such an entry is dropped at
the end of the first round that scans it: on an all-non-two-segment
queue `resolve_macros` empties the queue reporting a fixed point, and
the queue is empty when the loop and flush finish. -/
theorem nonbinary_macro_path_dropped :
    (∀ (db : Db) (dm : CrateDefMap)
       (l : List (ModuleId × AstIdF × Path))
       (e : ModuleId × AstIdF × Path),
       e ∈ l → e.2.2.segments.length ≠ 2 →
       e ∈ (l.foldl (resolveMacroScanStep db dm)
         ([], [], ReachedFixedPoint.Yes)).1) ∧
    (∀ (db : Db) (dm : CrateDefMap)
       (l : List (ModuleId × AstIdF × Path))
       (c : ModuleId × MacroCallId × MacroDefId),
       c ∈ (l.foldl (resolveMacroScanStep db dm)
         ([], [], ReachedFixedPoint.Yes)).2.1 →
       ∃ e ∈ l, e.2.2.segments.length = 2 ∧ c.1 = e.1 ∧
         c.2.1 = MacroCallId.mk c.2.2 e.2.1) ∧
    (∀ (db : Db) (fuel : Nat) (st : DefCollector),
       (∀ e ∈ st.unexpanded_macros, e.2.2.segments.length ≠ 2) →
       resolveMacros db fuel st =
         some ({ st with unexpanded_macros := [] },
           ReachedFixedPoint.Yes)) ∧
    (∀ (db : Db) (fuel : Nat) (st st' : DefCollector),
       collectRest db fuel st = some st' →
       (∀ e ∈ st.unexpanded_macros, e.2.2.segments.length ≠ 2) →
       st'.unexpanded_macros = []) ∧
    (∀ (d : Diagnostic), ∃ mod decl cand,
       d = Diagnostic.UnresolvedModule mod decl cand) := by
  refine ⟨fun db dm l e he hlen => scanFold_retains db dm l _ e he hlen,
    ?_, resolveMacros_nonbinary, ?_, ?_⟩
  · intro db dm l c hc
    rcases scanFold_call_source db dm l _ c hc with h0 | h0
    · exact absurd h0 (List.not_mem_nil c)
    · exact h0
  · intro db fuel st st' h hnb
    simp only [collectRest] at h
    split at h
    · exact Option.noConfusion h
    · rename_i st2 hloop
      have h1 := collectLoopAux_drops_nonbinary db fuel 1000 st st2
        hloop hnb
      have hq := foldlM_option_rel
        (fun (a b : DefCollector) =>
          b.unexpanded_macros = a.unexpanded_macros)
        (fun a b c ha hb => hb.trans ha) (fun _ => rfl) _ _ _ _
        (fun (a : ModuleId × ImportId × ImportData)
            (s1 s2 : DefCollector) _ hf =>
          (recordResolvedImport_queues_eq db s1 a.1 PerNs.none' a.2.1
            a.2.2 s2 hf).2)
        (by simpa only [flushUnresolved] using h)
      rw [hq]
      exact h1
  · intro d
    cases d with
    | UnresolvedModule m a c => exact ⟨m, a, c, rfl⟩

/-- Counterexample for C8 as stated: the three-segment invocation queued
in `egStMacroPending` does NOT remain pending when collection finishes —
`resolve_macros` takes the queue out and never restores the entries its
scan retains, so after the loop and flush the pending-macro queue is
empty. -/
theorem nonbinary_macro_retention_counterexample :
    egMacroEntry ∈ egStMacroPending.unexpanded_macros ∧
    egMacroEntry.2.2.segments.length ≠ 2 ∧
    (collectRest egDb 1 egStMacroPending).map
      (fun s => s.unexpanded_macros) = some [] := by decide

/-- The corrected C8 theorem applied at the concrete three-segment
invocation: the round's scan keeps it in the local retained list, yet
the pending queue is empty when collection finishes. -/
theorem nonbinary_macro_path_dropped_witness :
    egMacroEntry ∈ ((egStMacroPending.unexpanded_macros).foldl
      (resolveMacroScanStep egDb egStMacroPending.def_map)
      ([], [], ReachedFixedPoint.Yes)).1 ∧
    egMacroFinal.unexpanded_macros = [] := by
  constructor
  · exact nonbinary_macro_path_dropped.1 egDb egStMacroPending.def_map
      egStMacroPending.unexpanded_macros egMacroEntry (by decide)
      (by decide)
  · exact nonbinary_macro_path_dropped.2.2.2.1 egDb 1 egStMacroPending
      egMacroFinal rfl (by decide)

end Theorems

end Nameres
